import Mathlib

/-!
Verification of the queue-system service (`app.py`) against its
natural-language specification.

The SQLite-backed Flask application is shallowly embedded: each table is a
Lean list of records kept in rowid order (for these tables the `INTEGER
PRIMARY KEY` column is the rowid, so a full table scan yields ascending
ids), each route's transactional body is a pure function from a `DB` state
to a result and a new `DB` state, and `CURRENT_TIMESTAMP` is an explicit
`now : Nat` parameter.  A SQL `SELECT ... LIMIT 1` without `ORDER BY` is
the head of the filtered row list (scan order); `ORDER BY position,
created_at` is a stable insertion sort by that lexicographic key;
`UPDATE`/`DELETE` are maps/filters over the row list.  The history insert
inside `log_to_history` is wrapped in `try/except` in the source, so its
success is modelled by a boolean `hok` ("history write ok") parameter.
-/

namespace QueueSystem

/-- Queue-entry lifecycle states stored in the `status` column. -/
inductive Status where
  | waiting
  | called
  | completed
  | finished
  | released
deriving DecidableEq, Repr

/-- A row of the `stations` table (the columns the queue engine reads). -/
structure Station where
  id : Nat
  name : String
  queue_group_id : Option String
  hidden : Bool
  restricted : Bool
deriving DecidableEq, Repr

/-- A row of the `operators` table. -/
structure Operator where
  id : Nat
  code : String
  station_id : Option Nat
  name : String
  finish_operator : Bool
deriving DecidableEq, Repr

/-- A row of the `queue_entries` table. -/
structure Entry where
  id : Nat
  station_id : Nat
  customer_number : Nat
  status : Status
  position : Int
  created_at : Nat
  called_at : Option Nat
  completed_at : Option Nat
  finished_at : Option Nat
  released_at : Option Nat
deriving DecidableEq, Repr

/-- A row of the `queue_entries_history` table. -/
structure HistoryRecord where
  customer_number : Nat
  station_id : Nat
  station_name : String
  status : Status
  action : String
  created_at : Nat
deriving DecidableEq, Repr

/-- The whole SQLite database.  `nextId` is the `AUTOINCREMENT` counter of
`queue_entries`; rows of every table are kept in rowid (ascending id)
order, new rows are appended. -/
structure DB where
  stations : List Station
  operators : List Operator
  entries : List Entry
  history : List HistoryRecord
  nextId : Nat
deriving DecidableEq, Repr

/-- `SELECT ... FROM stations WHERE id = ? (LIMIT 1)`. -/
def stationById (stations : List Station) (sid : Nat) : Option Station :=
  (stations.filter (fun s => decide (s.id = sid))).head?

/-- The queue-station resolution every operation performs
(`app.py` lines 462-472, 589-599, 838-848, 269-280, 398-409, 1052-1062):
`SELECT id FROM stations WHERE queue_group_id = ? LIMIT 1` when the station
has a `queue_group_id`, the station's own id otherwise.  `LIMIT 1` without
`ORDER BY` is the first row in scan (rowid) order. -/
def resolveQueueStation (stations : List Station) (s : Station) : Option Nat :=
  match s.queue_group_id with
  | none => some s.id
  | some g =>
      ((stations.filter (fun t => decide (t.queue_group_id = some g))).head?).map Station.id

/-- An entry is active when its status is `waiting` or `called`. -/
def Entry.isActive (e : Entry) : Prop :=
  e.status = Status.waiting ∨ e.status = Status.called

instance (e : Entry) : Decidable e.isActive := by
  unfold Entry.isActive
  infer_instance

/-- The stations table is in rowid order: ids strictly ascending. -/
def StationsSorted (stations : List Station) : Prop :=
  List.Sorted (fun a b => a.id < b.id) stations

instance (stations : List Station) : Decidable (StationsSorted stations) := by
  unfold StationsSorted List.Sorted
  infer_instance

/-- Filtering a pairwise-related list keeps it pairwise related. -/
theorem StationsSorted.filter {stations : List Station} (p : Station → Bool)
    (h : StationsSorted stations) : StationsSorted (stations.filter p) :=
  List.Pairwise.filter p h

/-- Demo configuration: one ungrouped station and a two-station group "G". -/
def demoStations : List Station :=
  [⟨1, "A", none, false, false⟩, ⟨2, "B", some "G", false, false⟩,
   ⟨3, "C", some "G", false, false⟩]

/-- The third demo station (member of group "G", not its lowest id). -/
def demoStation3 : Station := ⟨3, "C", some "G", false, false⟩

/-- C1: for a station with no `queue_group_id` the shared queue-station
resolution (`resolveQueueStation`, invoked verbatim by `add_entry`,
`call_next_customer`, `insert_customer_at_position`, `center_data`,
`stations_list` and `admin_report`) returns the station's own id, and for
a grouped station it returns the minimum id among the stations sharing
that `queue_group_id` (the head of the rowid-ordered scan). -/
theorem resolveQueueStation_min (stations : List Station) (s : Station)
    (hmem : s ∈ stations) (hsort : StationsSorted stations) :
    (s.queue_group_id = none → resolveQueueStation stations s = some s.id) ∧
    (∀ g, s.queue_group_id = some g →
      ∃ t, t ∈ stations ∧ t.queue_group_id = some g ∧
        resolveQueueStation stations s = some t.id ∧
        ∀ u, u ∈ stations → u.queue_group_id = some g → t.id ≤ u.id) := by
  constructor
  · intro h
    simp [resolveQueueStation, h]
  · intro g hg
    have hsl : s ∈ stations.filter (fun t => decide (t.queue_group_id = some g)) := by
      simp only [List.mem_filter, decide_eq_true_iff]
      exact ⟨hmem, hg⟩
    cases hl : stations.filter (fun t => decide (t.queue_group_id = some g)) with
    | nil => rw [hl] at hsl; simp at hsl
    | cons t rest =>
      have hpair := StationsSorted.filter
        (fun t => decide (t.queue_group_id = some g)) hsort
      rw [hl] at hpair
      have ht : t ∈ stations.filter (fun t => decide (t.queue_group_id = some g)) := by
        rw [hl]; exact List.mem_cons_self t rest
      have ht' := List.mem_filter.mp ht
      refine ⟨t, ht'.1, by simpa using ht'.2, ?_, ?_⟩
      · simp [resolveQueueStation, hg, hl]
      · intro u hu hug
        have humem : u ∈ stations.filter (fun t => decide (t.queue_group_id = some g)) := by
          simp only [List.mem_filter, decide_eq_true_iff]
          exact ⟨hu, hug⟩
        rw [hl] at humem
        rcases List.mem_cons.mp humem with h | h
        · subst h; exact le_refl _
        · exact le_of_lt (List.rel_of_pairwise_cons hpair h)

/-- Witness for C1: on the demo configuration the resolution of station 3
(group "G") is station 2, the group's minimum id. -/
theorem resolveQueueStation_min_witness :
    (demoStation3.queue_group_id = none →
      resolveQueueStation demoStations demoStation3 = some demoStation3.id) ∧
    (∀ g, demoStation3.queue_group_id = some g →
      ∃ t, t ∈ demoStations ∧ t.queue_group_id = some g ∧
        resolveQueueStation demoStations demoStation3 = some t.id ∧
        ∀ u, u ∈ demoStations → u.queue_group_id = some g → t.id ≤ u.id) :=
  resolveQueueStation_min demoStations demoStation3 (by decide) (by decide)

/-- The `ORDER BY position ASC, created_at ASC` key, as a relation. -/
def entryLe (a b : Entry) : Prop :=
  a.position < b.position ∨ (a.position = b.position ∧ a.created_at ≤ b.created_at)

/-- Strict lexicographic order on (position, created_at). -/
def entryLt (a b : Entry) : Prop :=
  a.position < b.position ∨ (a.position = b.position ∧ a.created_at < b.created_at)

instance : DecidableRel entryLe := fun a b => by
  unfold entryLe; infer_instance

instance : DecidableRel entryLt := fun a b => by
  unfold entryLt; infer_instance

instance : IsTotal Entry entryLe where
  total a b := by
    unfold entryLe
    rcases lt_trichotomy a.position b.position with h | h | h
    · exact Or.inl (Or.inl h)
    · rcases Nat.le_total a.created_at b.created_at with h' | h'
      · exact Or.inl (Or.inr ⟨h, h'⟩)
      · exact Or.inr (Or.inr ⟨h.symm, h'⟩)
    · exact Or.inr (Or.inl h)

instance : IsTrans Entry entryLe where
  trans a b c hab hbc := by
    unfold entryLe at *
    rcases hab with h1 | ⟨h1, h1'⟩ <;> rcases hbc with h2 | ⟨h2, h2'⟩
    · exact Or.inl (h1.trans h2)
    · exact Or.inl (h2 ▸ h1)
    · exact Or.inl (h1 ▸ h2)
    · exact Or.inr ⟨h1.trans h2, h1'.trans h2'⟩

/-- A result list read with `ORDER BY position ASC, created_at ASC`:
stable sort of the scan-ordered rows by the lexicographic key. -/
def orderByQueue (l : List Entry) : List Entry :=
  List.insertionSort entryLe l

/-- `SELECT ... WHERE station_id = ? AND customer_number = ? AND status IN
('waiting','called')`: the duplicate-prevention check of `add_entry`. -/
def activeAt (entries : List Entry) (sid c : Nat) : List Entry :=
  entries.filter (fun e => decide (e.station_id = sid ∧ e.customer_number = c ∧ e.isActive))

/-- `SELECT ... WHERE customer_number = ? AND status IN ('waiting','called')`:
the cross-queue check of `add_entry`. -/
def activeAnywhere (entries : List Entry) (c : Nat) : List Entry :=
  entries.filter (fun e => decide (e.customer_number = c ∧ e.isActive))

/-- `SELECT COALESCE(MAX(position), 0) FROM queue_entries WHERE station_id
= ? AND status = 'waiting'` (app.py lines 520-525). -/
def maxWaitingPos (entries : List Entry) (sid : Nat) : Int :=
  match (entries.filter
      (fun e => decide (e.station_id = sid ∧ e.status = Status.waiting))).map Entry.position with
  | [] => 0
  | p :: ps => ps.foldl max p

/-- `log_to_history` (app.py lines 67-77): the history INSERT runs inside
`try/except`, so when the write fails (`hok = false`) the state is simply
unchanged and no error propagates to the caller. -/
def log_to_history (hok : Bool) (db : DB) (customer_number station_id : Nat)
    (station_name : String) (status : Status) (action : String) (now : Nat) : DB :=
  if hok then
    {db with history :=
      db.history ++ [⟨customer_number, station_id, station_name, status, action, now⟩]}
  else db

/-- Outcome of `/api/add-entry`. -/
inductive AddResult where
  | stationNotFound
  | internalError
  | duplicateInQueue
  | conflictAcrossQueues (otherName : String)
  | added (entryId : Nat)
deriving DecidableEq, Repr

/-- The shared fall-through tail of `add_entry` (app.py lines 520-547):
compute the max waiting position at the queue station, insert the new
`waiting` row at `max + 1`, and best-effort log the `added` history row. -/
def addEntryInsert (db : DB) (now : Nat) (queue_station_id customer_number : Nat)
    (hok : Bool) : AddResult × DB :=
  let max_position := maxWaitingPos db.entries queue_station_id
  let newEntry : Entry :=
    ⟨db.nextId, queue_station_id, customer_number, Status.waiting,
      max_position + 1, now, none, none, none, none⟩
  let db1 := {db with entries := db.entries ++ [newEntry], nextId := db.nextId + 1}
  let db2 :=
    match stationById db1.stations queue_station_id with
    | some srow =>
        log_to_history hok db1 customer_number queue_station_id srow.name
          Status.waiting "added" now
    | none => db1
  (AddResult.added db.nextId, db2)

/-- `/api/add-entry` (app.py lines 431-556), after input validation:
resolve the queue station, reject a duplicate at that queue, detect the
customer active in another queue (conflict, or transfer-delete), then
append the new waiting entry at the tail. -/
def add_entry (db : DB) (now : Nat) (station_id customer_number : Nat)
    (transfer : Bool) (hok : Bool) : AddResult × DB :=
  match stationById db.stations station_id with
  | none => (AddResult.stationNotFound, db)
  | some station =>
    match resolveQueueStation db.stations station with
    | none => (AddResult.internalError, db)
    | some queue_station_id =>
      if (activeAt db.entries queue_station_id customer_number).isEmpty then
        match (activeAnywhere db.entries customer_number).head? with
        | some existing =>
            if transfer then
              let db1 := {db with entries := db.entries.filter (fun e =>
                !(decide (e.customer_number = customer_number ∧
                   e.station_id = existing.station_id ∧ e.status ≠ Status.completed)))}
              addEntryInsert db1 now queue_station_id customer_number hok
            else
              match stationById db.stations existing.station_id with
              | none => (AddResult.internalError, db)
              | some other => (AddResult.conflictAcrossQueues other.name, db)
        | none => addEntryInsert db now queue_station_id customer_number hok
      else
        (AddResult.duplicateInQueue, db)

/-- At most one waiting/called entry per (station, customer) pair: no two
distinct rows are simultaneously active for the same station and customer.
-/
def AtMostOneActive (db : DB) : Prop :=
  db.entries.Pairwise (fun a b =>
    ¬(a.isActive ∧ b.isActive ∧ a.station_id = b.station_id ∧
      a.customer_number = b.customer_number))

instance (db : DB) : Decidable (AtMostOneActive db) := by
  unfold AtMostOneActive
  infer_instance

/-- One parsed request to `/api/add-entry`. -/
structure EnqueueReq where
  now : Nat
  station_id : Nat
  customer_number : Nat
  transfer : Bool
  hok : Bool
deriving DecidableEq, Repr

/-- A sequence of enqueue calls, applied in order. -/
def runEnqueues (db : DB) (reqs : List EnqueueReq) : DB :=
  reqs.foldl
    (fun d r => (add_entry d r.now r.station_id r.customer_number r.transfer r.hok).snd) db

/-- `addEntryInsert` only ever appends the one new waiting row to
`queue_entries` (the history write never touches that table). -/
theorem addEntryInsert_entries (db : DB) (now qsid c : Nat) (hok : Bool) :
    (addEntryInsert db now qsid c hok).snd.entries =
      db.entries ++ [⟨db.nextId, qsid, c, Status.waiting,
        maxWaitingPos db.entries qsid + 1, now, none, none, none, none⟩] := by
  unfold addEntryInsert log_to_history
  rcases h : stationById db.stations qsid with _ | srow <;> rcases hok <;>
    simp [h]

/-- `addEntryInsert` reports success with the fresh entry id. -/
theorem addEntryInsert_fst (db : DB) (now qsid c : Nat) (hok : Bool) :
    (addEntryInsert db now qsid c hok).fst = AddResult.added db.nextId := by
  unfold addEntryInsert
  rcases h : stationById db.stations qsid with _ | srow <;> simp [h]

/-- Appending a fresh active row for a (station, customer) pair with no
active row keeps the pairwise at-most-one-active property. -/
theorem pairwise_active_append (db : DB) (base : List Entry) (qsid c : Nat)
    (pos : Int) (idv now : Nat)
    (hsub : base.Sublist db.entries) (h : AtMostOneActive db)
    (hfree : (activeAt db.entries qsid c).isEmpty = true) :
    List.Pairwise (fun a b =>
      ¬(a.isActive ∧ b.isActive ∧ a.station_id = b.station_id ∧
        a.customer_number = b.customer_number))
      (base ++ [⟨idv, qsid, c, Status.waiting, pos, now, none, none, none, none⟩]) := by
  rw [List.pairwise_append]
  refine ⟨List.Pairwise.sublist hsub h, List.pairwise_singleton _ _, ?_⟩
  intro a ha b hb
  simp only [List.mem_singleton] at hb
  subst hb
  rintro ⟨haact, -, hsid, hcust⟩
  have hax : a ∈ activeAt db.entries qsid c := by
    unfold activeAt
    rw [List.mem_filter]
    refine ⟨hsub.subset ha, ?_⟩
    simp only [decide_eq_true_iff]
    exact ⟨by simpa using hsid, by simpa using hcust, haact⟩
  rw [List.isEmpty_iff] at hfree
  rw [hfree] at hax
  simp at hax

/-- One `add_entry` call preserves the at-most-one-active property. -/
theorem add_entry_preserves_amoa (db : DB) (now sid c : Nat) (t hok : Bool)
    (h : AtMostOneActive db) :
    AtMostOneActive (add_entry db now sid c t hok).snd := by
  unfold add_entry
  rcases hs : stationById db.stations sid with _ | s
  · simp only [hs]; exact h
  simp only [hs]
  rcases hq : resolveQueueStation db.stations s with _ | qsid
  · simp only [hq]; exact h
  simp only [hq]
  rcases hemp : (activeAt db.entries qsid c).isEmpty with _ | _
  · rw [if_neg Bool.false_ne_true]
    exact h
  rw [if_pos rfl]
  rcases hex : (activeAnywhere db.entries c).head? with _ | existing
  · simp only [hex, AtMostOneActive]
    rw [addEntryInsert_entries]
    exact pairwise_active_append db db.entries qsid c _ _ now
      (List.Sublist.refl _) h hemp
  simp only [hex]
  rcases t with _ | _
  · rw [if_neg Bool.false_ne_true]
    rcases ho : stationById db.stations existing.station_id with _ | other
    · simp only [ho]; exact h
    · simp only [ho]; exact h
  · rw [if_pos rfl]
    simp only [AtMostOneActive]
    rw [addEntryInsert_entries]
    exact pairwise_active_append db _ qsid c _ _ now
      (List.filter_sublist _) h hemp

/-- C3: starting from a state with at most one active entry per
(queue-station, customer) pair, any sequence of enqueue calls preserves
that invariant, and an enqueue for a customer already waiting/called at
the resolved queue station fails with `duplicateInQueue` leaving the
database (hence the entries table) untouched. -/
theorem enqueue_at_most_one_active (db : DB) (reqs : List EnqueueReq)
    (h : AtMostOneActive db) :
    AtMostOneActive (runEnqueues db reqs) ∧
    (∀ now sid c s qsid, stationById db.stations sid = some s →
      resolveQueueStation db.stations s = some qsid →
      (activeAt db.entries qsid c).isEmpty = false →
      ∀ t hok, add_entry db now sid c t hok = (AddResult.duplicateInQueue, db)) := by
  constructor
  · induction reqs generalizing db with
    | nil => exact h
    | cons r rest ih =>
        exact ih _ (add_entry_preserves_amoa db r.now r.station_id
          r.customer_number r.transfer r.hok h)
  · intro now sid c s qsid hs hq hdup t hok
    unfold add_entry
    simp only [hs, hq, hdup]
    rw [if_neg Bool.false_ne_true]

/-- Demo operators: one per grouped station plus a finish operator. -/
def demoOperators : List Operator :=
  [⟨1, "op2", some 2, "Op Two", false⟩, ⟨2, "op3", some 3, "Op Three", false⟩,
   ⟨3, "fin", none, "Fin", true⟩]

/-- Demo database: demo stations and operators, empty queue. -/
def demoDB : DB :=
  ⟨demoStations, demoOperators, [], [], 1⟩

/-- Witness for C3: from the empty demo database, a duplicate-provoking
enqueue sequence still leaves at most one active entry per pair. -/
theorem enqueue_at_most_one_active_witness :
    AtMostOneActive (runEnqueues demoDB
      [⟨10, 2, 555, false, true⟩, ⟨11, 2, 555, false, true⟩, ⟨12, 1, 7, false, true⟩]) ∧
    (∀ now sid c s qsid, stationById demoDB.stations sid = some s →
      resolveQueueStation demoDB.stations s = some qsid →
      (activeAt demoDB.entries qsid c).isEmpty = false →
      ∀ t hok, add_entry demoDB now sid c t hok = (AddResult.duplicateInQueue, demoDB)) :=
  enqueue_at_most_one_active demoDB
    [⟨10, 2, 555, false, true⟩, ⟨11, 2, 555, false, true⟩, ⟨12, 1, 7, false, true⟩]
    (by decide)

/-- The seed of a running maximum bounds the result. -/
theorem seed_le_foldl_max (l : List Int) (a : Int) : a ≤ l.foldl max a := by
  induction l generalizing a with
  | nil => exact le_refl a
  | cons b l ih => exact le_trans (le_max_left a b) (ih (max a b))

/-- Every element of a list bounds its running maximum from below. -/
theorem mem_le_foldl_max (l : List Int) (a p : Int) (h : p ∈ l) :
    p ≤ l.foldl max a := by
  induction l generalizing a with
  | nil => simp at h
  | cons b l ih =>
      rcases List.mem_cons.mp h with rfl | h'
      · exact le_trans (le_max_right a p) (seed_le_foldl_max l (max a p))
      · exact ih (max a b) h'

/-- A waiting entry at a station has position at most `maxWaitingPos`. -/
theorem position_le_maxWaitingPos (entries : List Entry) (sid : Nat) (e : Entry)
    (he : e ∈ entries) (hsid : e.station_id = sid) (hw : e.status = Status.waiting) :
    e.position ≤ maxWaitingPos entries sid := by
  have hmem : e.position ∈ (entries.filter
      (fun e => decide (e.station_id = sid ∧ e.status = Status.waiting))).map Entry.position := by
    rw [List.mem_map]
    refine ⟨e, ?_, rfl⟩
    rw [List.mem_filter]
    exact ⟨he, by simp [hsid, hw]⟩
  unfold maxWaitingPos
  rcases hl : (entries.filter
      (fun e => decide (e.station_id = sid ∧ e.status = Status.waiting))).map Entry.position
    with _ | ⟨p, ps⟩
  · rw [hl] at hmem; simp at hmem
  · rw [hl] at hmem
    rw [hl]
    rcases List.mem_cons.mp hmem with hp | hp
    · rw [hp]; exact seed_le_foldl_max ps p
    · exact mem_le_foldl_max ps p _ hp

/-- Deleting a customer's rows at a station other than `sid` does not
change the max waiting position at `sid`. -/
theorem maxWaitingPos_filter_other (entries : List Entry) (sid c oth : Nat)
    (hne : oth ≠ sid) :
    maxWaitingPos (entries.filter (fun e =>
      !(decide (e.customer_number = c ∧ e.station_id = oth ∧
        e.status ≠ Status.completed)))) sid = maxWaitingPos entries sid := by
  unfold maxWaitingPos
  rw [List.filter_filter]
  have : entries.filter (fun e =>
      decide (e.station_id = sid ∧ e.status = Status.waiting) &&
      !(decide (e.customer_number = c ∧ e.station_id = oth ∧
        e.status ≠ Status.completed))) =
      entries.filter (fun e => decide (e.station_id = sid ∧ e.status = Status.waiting)) := by
    apply List.filter_congr
    intro e he
    by_cases hdel : e.customer_number = c ∧ e.station_id = oth ∧
        e.status ≠ Status.completed
    · have hns : ¬(e.station_id = sid ∧ e.status = Status.waiting) := by
        rintro ⟨h1, -⟩
        exact hne (by rw [← hdel.2.1, h1])
      simp [hns]
    · simp [hdel]
  rw [this]

/-- The first active entry found anywhere for a customer with no active
entry at `sid` sits at a different station. -/
theorem head_active_not_at (entries : List Entry) (sid c : Nat) (ex : Entry)
    (hemp : (activeAt entries sid c).isEmpty = true)
    (hex : (activeAnywhere entries c).head? = some ex) :
    ex ∈ entries ∧ ex.customer_number = c ∧ ex.isActive ∧ ex.station_id ≠ sid := by
  have hmem : ex ∈ activeAnywhere entries c := List.mem_of_mem_head? hex
  have hm := List.mem_filter.mp hmem
  have hprops := of_decide_eq_true hm.2
  refine ⟨hm.1, hprops.1, hprops.2, ?_⟩
  intro hsid
  have : ex ∈ activeAt entries sid c := by
    unfold activeAt
    rw [List.mem_filter]
    exact ⟨hm.1, by simp [hsid, hprops.1, hprops.2]⟩
  rw [List.isEmpty_iff] at hemp
  rw [hemp] at this
  simp at this

/-- C4: with the resolved queue station `qsid` — a customer already
waiting/called at `qsid` makes `add_entry` fail with `duplicateInQueue`
and no change; a customer active at a different station makes it fail with
`conflictAcrossQueues` reporting that station's name when `transfer` is
off, and with `transfer` on it deletes that customer's rows at that other
station (any status but `completed`) and inserts the new waiting entry, in
the same transaction. -/
theorem add_entry_conflict (db : DB) (now sid c : Nat) (hok : Bool)
    (s : Station) (qsid : Nat)
    (hs : stationById db.stations sid = some s)
    (hq : resolveQueueStation db.stations s = some qsid) :
    ((activeAt db.entries qsid c).isEmpty = false →
      ∀ t, add_entry db now sid c t hok = (AddResult.duplicateInQueue, db)) ∧
    (∀ ex, (activeAt db.entries qsid c).isEmpty = true →
      (activeAnywhere db.entries c).head? = some ex →
      (∀ os, stationById db.stations ex.station_id = some os →
        add_entry db now sid c false hok = (AddResult.conflictAcrossQueues os.name, db)) ∧
      (add_entry db now sid c true hok).fst = AddResult.added db.nextId ∧
      (add_entry db now sid c true hok).snd.entries =
        db.entries.filter (fun e =>
          !(decide (e.customer_number = c ∧ e.station_id = ex.station_id ∧
            e.status ≠ Status.completed))) ++
        [⟨db.nextId, qsid, c, Status.waiting, maxWaitingPos db.entries qsid + 1,
          now, none, none, none, none⟩]) := by
  constructor
  · intro hdup t
    unfold add_entry
    simp only [hs, hq, hdup]
    rw [if_neg Bool.false_ne_true]
  · intro ex hemp hex
    have hoth := (head_active_not_at db.entries qsid c ex hemp hex).2.2.2
    refine ⟨?_, ?_, ?_⟩
    · intro os hos
      unfold add_entry
      simp only [hs, hq, hemp, hex, hos]
      rw [if_pos trivial, if_neg Bool.false_ne_true]
    · unfold add_entry
      simp only [hs, hq, hemp, hex]
      rw [if_pos trivial, if_pos trivial]
      simp only [addEntryInsert_fst]
    · unfold add_entry
      simp only [hs, hq, hemp, hex]
      rw [if_pos trivial, if_pos trivial]
      simp only [addEntryInsert_entries]
      rw [maxWaitingPos_filter_other db.entries qsid c ex.station_id hoth]

/-- Demo database with customer 555 active (waiting) at station 1. -/
def demoDB2 : DB :=
  ⟨demoStations, demoOperators,
   [⟨1, 1, 555, Status.waiting, 1, 5, none, none, none, none⟩], [], 2⟩

/-- Witness for C4: enqueueing customer 555 at grouped station 3 (queue
station 2) while 555 waits at station 1 conflicts naming station "A", and
with transfer on deletes the station-1 row and appends the new entry. -/
theorem add_entry_conflict_witness :
    ((activeAt demoDB2.entries 2 555).isEmpty = false →
      ∀ t, add_entry demoDB2 20 3 555 t true = (AddResult.duplicateInQueue, demoDB2)) ∧
    (∀ ex, (activeAt demoDB2.entries 2 555).isEmpty = true →
      (activeAnywhere demoDB2.entries 555).head? = some ex →
      (∀ os, stationById demoDB2.stations ex.station_id = some os →
        add_entry demoDB2 20 3 555 false true =
          (AddResult.conflictAcrossQueues os.name, demoDB2)) ∧
      (add_entry demoDB2 20 3 555 true true).fst = AddResult.added demoDB2.nextId ∧
      (add_entry demoDB2 20 3 555 true true).snd.entries =
        demoDB2.entries.filter (fun e =>
          !(decide (e.customer_number = 555 ∧ e.station_id = ex.station_id ∧
            e.status ≠ Status.completed))) ++
        [⟨demoDB2.nextId, 2, 555, Status.waiting,
          maxWaitingPos demoDB2.entries 2 + 1, 20, none, none, none, none⟩]) :=
  add_entry_conflict demoDB2 20 3 555 true demoStation3 2 (by decide) (by decide)

/-- Branch equation: duplicate at the resolved queue station. -/
theorem add_entry_eq_dup (db : DB) (now sid c : Nat) (t hok : Bool)
    (s : Station) (qsid : Nat)
    (hs : stationById db.stations sid = some s)
    (hq : resolveQueueStation db.stations s = some qsid)
    (hdup : (activeAt db.entries qsid c).isEmpty = false) :
    add_entry db now sid c t hok = (AddResult.duplicateInQueue, db) := by
  unfold add_entry
  simp only [hs, hq, hdup]
  rw [if_neg Bool.false_ne_true]

/-- Branch equation: customer active nowhere, plain insert. -/
theorem add_entry_eq_fresh (db : DB) (now sid c : Nat) (t hok : Bool)
    (s : Station) (qsid : Nat)
    (hs : stationById db.stations sid = some s)
    (hq : resolveQueueStation db.stations s = some qsid)
    (hemp : (activeAt db.entries qsid c).isEmpty = true)
    (hnone : (activeAnywhere db.entries c).head? = none) :
    add_entry db now sid c t hok = addEntryInsert db now qsid c hok := by
  unfold add_entry
  simp only [hs, hq, hemp, hnone]
  rw [if_pos trivial]

/-- Branch equation: transfer on, delete at the other station then insert. -/
theorem add_entry_eq_transfer (db : DB) (now sid c : Nat) (hok : Bool)
    (s : Station) (qsid : Nat) (ex : Entry)
    (hs : stationById db.stations sid = some s)
    (hq : resolveQueueStation db.stations s = some qsid)
    (hemp : (activeAt db.entries qsid c).isEmpty = true)
    (hex : (activeAnywhere db.entries c).head? = some ex) :
    add_entry db now sid c true hok =
      addEntryInsert {db with entries := db.entries.filter (fun e =>
        !(decide (e.customer_number = c ∧ e.station_id = ex.station_id ∧
          e.status ≠ Status.completed)))} now qsid c hok := by
  unfold add_entry
  simp only [hs, hq, hemp, hex]
  rw [if_pos trivial, if_pos trivial]

/-- Branch equation: transfer off, conflict reported with the name. -/
theorem add_entry_eq_conflict (db : DB) (now sid c : Nat) (hok : Bool)
    (s : Station) (qsid : Nat) (ex : Entry) (os : Station)
    (hs : stationById db.stations sid = some s)
    (hq : resolveQueueStation db.stations s = some qsid)
    (hemp : (activeAt db.entries qsid c).isEmpty = true)
    (hex : (activeAnywhere db.entries c).head? = some ex)
    (hos : stationById db.stations ex.station_id = some os) :
    add_entry db now sid c false hok = (AddResult.conflictAcrossQueues os.name, db) := by
  unfold add_entry
  simp only [hs, hq, hemp, hex, hos]
  rw [if_pos trivial, if_neg Bool.false_ne_true]

/-- Branch equation: transfer off and the other station row missing. -/
theorem add_entry_eq_confnone (db : DB) (now sid c : Nat) (hok : Bool)
    (s : Station) (qsid : Nat) (ex : Entry)
    (hs : stationById db.stations sid = some s)
    (hq : resolveQueueStation db.stations s = some qsid)
    (hemp : (activeAt db.entries qsid c).isEmpty = true)
    (hex : (activeAnywhere db.entries c).head? = some ex)
    (hosn : stationById db.stations ex.station_id = none) :
    add_entry db now sid c false hok = (AddResult.internalError, db) := by
  unfold add_entry
  simp only [hs, hq, hemp, hex, hosn]
  rw [if_pos trivial, if_neg Bool.false_ne_true]

/-- C6: a successful enqueue inserts its entry with position one plus the
maximum position among the waiting entries at the resolved queue station
in the pre-state (zero when none), and that entry's position is strictly
greater than every other waiting entry's at that station, i.e. it is the
tail of the waiting order. -/
theorem add_entry_appends_at_tail (db : DB) (now sid c : Nat) (t hok : Bool)
    (s : Station) (qsid : Nat)
    (hs : stationById db.stations sid = some s)
    (hq : resolveQueueStation db.stations s = some qsid) :
    ∀ eid, (add_entry db now sid c t hok).fst = AddResult.added eid →
      eid = db.nextId ∧
      (⟨eid, qsid, c, Status.waiting, maxWaitingPos db.entries qsid + 1, now,
        none, none, none, none⟩ : Entry) ∈ (add_entry db now sid c t hok).snd.entries ∧
      ∀ e ∈ (add_entry db now sid c t hok).snd.entries,
        e.station_id = qsid → e.status = Status.waiting → e.id ≠ eid →
          e.position < maxWaitingPos db.entries qsid + 1 := by
  intro eid hadd
  rcases hemp : (activeAt db.entries qsid c).isEmpty with _ | _
  · rw [add_entry_eq_dup db now sid c t hok s qsid hs hq hemp] at hadd
    simp at hadd
  · rcases hex : (activeAnywhere db.entries c).head? with _ | ex
    · have heq := add_entry_eq_fresh db now sid c t hok s qsid hs hq hemp hex
      rw [heq] at hadd ⊢
      rw [addEntryInsert_fst] at hadd
      injection hadd with h
      subst h
      refine ⟨rfl, ?_, ?_⟩
      · rw [addEntryInsert_entries]
        exact List.mem_append_right _ (List.mem_singleton_self _)
      · intro e he hsid hw hid
        rw [addEntryInsert_entries] at he
        rcases List.mem_append.mp he with he | he
        · have := position_le_maxWaitingPos db.entries qsid e he hsid hw
          omega
        · simp only [List.mem_singleton] at he
          subst he
          simp at hid
    · rcases t with _ | _
      · rcases hos : stationById db.stations ex.station_id with _ | os
        · rw [add_entry_eq_confnone db now sid c hok s qsid ex hs hq hemp hex hos] at hadd
          simp at hadd
        · rw [add_entry_eq_conflict db now sid c hok s qsid ex os hs hq hemp hex hos] at hadd
          simp at hadd
      · have hoth := (head_active_not_at db.entries qsid c ex hemp hex).2.2.2
        have hmx := maxWaitingPos_filter_other db.entries qsid c ex.station_id hoth
        have heq := add_entry_eq_transfer db now sid c hok s qsid ex hs hq hemp hex
        rw [heq] at hadd ⊢
        rw [addEntryInsert_fst] at hadd
        injection hadd with h
        subst h
        refine ⟨rfl, ?_, ?_⟩
        · rw [addEntryInsert_entries]
          simp only [hmx]
          exact List.mem_append_right _ (List.mem_singleton_self _)
        · intro e he hsid hw hid
          rw [addEntryInsert_entries] at he
          rcases List.mem_append.mp he with he | he
          · have hee : e ∈ db.entries := (List.filter_sublist _).subset he
            have := position_le_maxWaitingPos db.entries qsid e hee hsid hw
            omega
          · simp only [List.mem_singleton] at he
            subst he
            simp at hid

/-- Witness for C6: enqueueing customer 7 at grouped station 3 of the
demo database lands at queue station 2 with position
`maxWaitingPos + 1 = 1`, ahead of no one. -/
theorem add_entry_appends_at_tail_witness :
    2 = demoDB2.nextId ∧
    (⟨2, 2, 7, Status.waiting, maxWaitingPos demoDB2.entries 2 + 1, 21,
      none, none, none, none⟩ : Entry) ∈ (add_entry demoDB2 21 3 7 false true).snd.entries ∧
    ∀ e ∈ (add_entry demoDB2 21 3 7 false true).snd.entries,
      e.station_id = 2 → e.status = Status.waiting → e.id ≠ 2 →
        e.position < maxWaitingPos demoDB2.entries 2 + 1 :=
  add_entry_appends_at_tail demoDB2 21 3 7 false true demoStation3 2
    (by decide) (by decide) 2 (by decide)

/-- Outcome of `/api/call-next/<station_id>`. -/
inductive CallResult where
  | unauthorized
  | internalError
  | queueEmpty
  | called (customer_number : Nat)
deriving DecidableEq, Repr

/-- The rows the call-next SELECT ranges over (app.py lines 601-619):
all waiting entries at stations of the caller's queue group when grouped,
the waiting entries at the resolved queue station otherwise. -/
def groupWaiting (db : DB) (s : Station) (queue_station_id : Nat) : List Entry :=
  match s.queue_group_id with
  | some g =>
      db.entries.filter (fun e => decide (e.status = Status.waiting ∧
        e.station_id ∈ (db.stations.filter
          (fun t => decide (t.queue_group_id = some g))).map Station.id))
  | none =>
      db.entries.filter (fun e => decide (e.station_id = queue_station_id ∧
        e.status = Status.waiting))

/-- Station name used for the `called` history row, with the source's
fallback text when the station row is missing. -/
def stationNameOr (db : DB) (station_id : Nat) : String :=
  match stationById db.stations station_id with
  | some srow => srow.name
  | none => "Station " ++ toString station_id

/-- Row effect of `UPDATE queue_entries SET status = 'completed',
completed_at = CURRENT_TIMESTAMP WHERE station_id = ? AND status =
'called'` (app.py lines 628-632). -/
def completeCalledAt (station_id now : Nat) (e : Entry) : Entry :=
  if e.station_id = station_id ∧ e.status = Status.called then
    {e with status := Status.completed, completed_at := some now}
  else e

/-- Row effect of `UPDATE queue_entries SET status = 'called', called_at
= CURRENT_TIMESTAMP, station_id = ? WHERE id = ?` (app.py lines 635-639).
-/
def callEntry (mid station_id now : Nat) (e : Entry) : Entry :=
  if e.id = mid then
    {e with status := Status.called, called_at := some now, station_id := station_id}
  else e

/-- Keep predicate of `DELETE FROM queue_entries WHERE customer_number =
? AND station_id != ? AND status = 'waiting'` (app.py lines 654-659): true
for the surviving rows. -/
def notOtherWaiting (cust station_id : Nat) (e : Entry) : Bool :=
  !(decide (e.customer_number = cust ∧ e.station_id ≠ station_id ∧
    e.status = Status.waiting))

/-- `/api/call-next/<station_id>` (app.py lines 559-677): authorize the
operator, resolve the group, pick the first waiting entry ordered by
(position, created_at), complete the previous called entry at this
station, call the picked entry here (reassigning its station), best-effort
log history, and when grouped delete the customer's other waiting rows. -/
def call_next_customer (db : DB) (now : Nat) (station_id : Nat)
    (operator_code : String) (hok : Bool) : CallResult × DB :=
  match (db.operators.filter (fun o => decide (o.code = operator_code ∧
      o.station_id = some station_id))).head? with
  | none => (CallResult.unauthorized, db)
  | some _ =>
    match stationById db.stations station_id with
    | none => (CallResult.internalError, db)
    | some station =>
      match resolveQueueStation db.stations station with
      | none => (CallResult.internalError, db)
      | some queue_station_id =>
        match (orderByQueue (groupWaiting db station queue_station_id)).head? with
        | none => (CallResult.queueEmpty, db)
        | some entry =>
          let entries1 := db.entries.map (completeCalledAt station_id now)
          let entries2 := entries1.map (callEntry entry.id station_id now)
          let db1 := {db with entries := entries2}
          let db2 := log_to_history hok db1 entry.customer_number station_id
            (stationNameOr db station_id) Status.called "called" now
          let db3 :=
            match station.queue_group_id with
            | some _ => {db2 with entries :=
                db2.entries.filter (notOtherWaiting entry.customer_number station_id)}
            | none => db2
          (CallResult.called entry.customer_number, db3)

/-- The history write never changes `queue_entries`. -/
theorem log_to_history_entries (hok : Bool) (db : DB) (cn sid : Nat)
    (nm : String) (st : Status) (act : String) (now : Nat) :
    (log_to_history hok db cn sid nm st act now).entries = db.entries := by
  unfold log_to_history
  rcases hok <;> rfl

/-- The history write appends exactly its record, when it succeeds. -/
theorem log_to_history_history (hok : Bool) (db : DB) (cn sid : Nat)
    (nm : String) (st : Status) (act : String) (now : Nat) :
    (log_to_history hok db cn sid nm st act now).history =
      db.history ++ (if hok then [⟨cn, sid, nm, st, act, now⟩] else []) := by
  unfold log_to_history
  rcases hok <;> simp

/-- The head of the stable (position, created_at) sort is the unique
strict minimum, when one exists. -/
theorem orderByQueue_head_unique_min (l : List Entry) (u : Entry) (hu : u ∈ l)
    (hmin : ∀ e ∈ l, e ≠ u → entryLt u e) :
    (orderByQueue l).head? = some u := by
  have hperm := List.perm_insertionSort entryLe l
  have hsorted := List.sorted_insertionSort entryLe l
  rcases hl : orderByQueue l with _ | ⟨h, t⟩
  · have hm : u ∈ orderByQueue l := hperm.mem_iff.mpr hu
    rw [hl] at hm
    simp at hm
  · have hmemu : u ∈ orderByQueue l := hperm.mem_iff.mpr hu
    rw [hl] at hmemu
    have hhl : h ∈ l := by
      apply hperm.subset
      rw [show List.insertionSort entryLe l = orderByQueue l from rfl, hl]
      exact List.mem_cons_self h t
    by_cases heq : h = u
    · rw [heq]; rfl

    · have hlt := hmin h hhl heq
      rcases List.mem_cons.mp hmemu with h1 | h1
      · exact absurd h1.symm heq
      · have hsc : List.Sorted entryLe (h :: t) := hl ▸ hsorted
        have hle : entryLe h u := (List.sorted_cons.mp hsc).1 u h1
        exfalso
        unfold entryLt at hlt
        unfold entryLe at hle
        rcases hlt with hp | ⟨hp, hc⟩ <;> rcases hle with hp' | ⟨hp', hc'⟩ <;> omega

/-- C2: with the operator authorized and the station resolved, call-next
on an empty eligible waiting set fails with `queueEmpty` and returns the
database unchanged; and when the eligible set has a unique
(position, created_at)-smallest entry `u`, the selection picks exactly `u`
and the call reports `u`'s customer number. -/
theorem call_next_selects_min (db : DB) (now : Nat) (station_id : Nat)
    (code : String) (hok : Bool) (op : Operator) (s : Station) (qsid : Nat)
    (hop : (db.operators.filter (fun o => decide (o.code = code ∧
      o.station_id = some station_id))).head? = some op)
    (hs : stationById db.stations station_id = some s)
    (hq : resolveQueueStation db.stations s = some qsid) :
    (groupWaiting db s qsid = [] →
      call_next_customer db now station_id code hok = (CallResult.queueEmpty, db)) ∧
    (∀ u, u ∈ groupWaiting db s qsid →
      (∀ e ∈ groupWaiting db s qsid, e ≠ u → entryLt u e) →
      (orderByQueue (groupWaiting db s qsid)).head? = some u ∧
      (call_next_customer db now station_id code hok).fst =
        CallResult.called u.customer_number) := by
  constructor
  · intro hgw
    unfold call_next_customer
    simp only [hop, hs, hq, hgw]
    rfl
  · intro u hu hmin
    have hd := orderByQueue_head_unique_min (groupWaiting db s qsid) u hu hmin
    refine ⟨hd, ?_⟩
    unfold call_next_customer
    simp only [hop, hs, hq, hd]

/-- The second demo station, canonical member of group "G". -/
def demoStation2 : Station := ⟨2, "B", some "G", false, false⟩

/-- Demo database with two waiting entries at queue station 2. -/
def demoDB3 : DB :=
  ⟨demoStations, demoOperators,
   [⟨1, 2, 100, Status.waiting, 1, 5, none, none, none, none⟩,
    ⟨2, 2, 101, Status.waiting, 2, 4, none, none, none, none⟩], [], 3⟩

/-- Witness for C2: calling next at station 2 of the demo database picks
customer 100, the unique entry with the smallest (position, created_at). -/
theorem call_next_selects_min_witness :
    (groupWaiting demoDB3 demoStation2 2 = [] →
      call_next_customer demoDB3 9 2 "op2" true = (CallResult.queueEmpty, demoDB3)) ∧
    (∀ u, u ∈ groupWaiting demoDB3 demoStation2 2 →
      (∀ e ∈ groupWaiting demoDB3 demoStation2 2, e ≠ u → entryLt u e) →
      (orderByQueue (groupWaiting demoDB3 demoStation2 2)).head? = some u ∧
      (call_next_customer demoDB3 9 2 "op2" true).fst =
        CallResult.called u.customer_number) :=
  call_next_selects_min demoDB3 9 2 "op2" true ⟨1, "op2", some 2, "Op Two", false⟩
    demoStation2 2 (by decide) (by decide) (by decide)

/-- Stations for the C5 counterexample: the demo stations plus an
ungrouped station 7 outside group "G". -/
def cexStations : List Station :=
  [⟨1, "A", none, false, false⟩, ⟨2, "B", some "G", false, false⟩,
   ⟨3, "C", some "G", false, false⟩, ⟨7, "D", none, false, false⟩]

/-- Counterexample state: customer 555 waits both at grouped station 2
and at unrelated station 7. -/
def cexDB : DB :=
  ⟨cexStations, demoOperators,
   [⟨1, 2, 555, Status.waiting, 1, 5, none, none, none, none⟩,
    ⟨2, 7, 555, Status.waiting, 1, 6, none, none, none, none⟩], [], 3⟩

/-- C5 counterexample: a successful call-next at grouped station 2 also
deletes customer 555's waiting entry at station 7, which is not a station
of the same group (its `queue_group_id` is NULL), contradicting the claim
that entries outside the three described categories are unchanged. -/
theorem call_next_deletes_outside_group :
    (stationById cexDB.stations 7).map Station.queue_group_id = some none ∧
    (stationById cexDB.stations 2).map Station.queue_group_id = some (some "G") ∧
    (⟨2, 7, 555, Status.waiting, 1, 6, none, none, none, none⟩ : Entry) ∈ cexDB.entries ∧
    (call_next_customer cexDB 9 2 "op2" true).fst = CallResult.called 555 ∧
    (∀ e ∈ (call_next_customer cexDB 9 2 "op2" true).snd.entries, e.id ≠ 2) := by
  decide

/-- The post-state of a successful call-next, with the selected entry
`m`: complete the called entry at the calling station, call `m` there,
best-effort history, and (grouped only) delete the customer's other
waiting rows.  This is the tail of `call_next_customer` with the match
results substituted. -/
def callNextState (db : DB) (now station_id : Nat) (s : Station) (m : Entry)
    (hok : Bool) : DB :=
  let entries1 := db.entries.map (completeCalledAt station_id now)
  let entries2 := entries1.map (callEntry m.id station_id now)
  let db1 := {db with entries := entries2}
  let db2 := log_to_history hok db1 m.customer_number station_id
    (stationNameOr db station_id) Status.called "called" now
  match s.queue_group_id with
  | some _ => {db2 with entries :=
      db2.entries.filter (notOtherWaiting m.customer_number station_id)}
  | none => db2

/-- Branch equation: a successful call-next returns the selected
customer's number and the `callNextState` post-state. -/
theorem call_next_eq_called (db : DB) (now station_id : Nat) (code : String)
    (hok : Bool) (op : Operator) (s : Station) (qsid : Nat) (m : Entry)
    (hop : (db.operators.filter (fun o => decide (o.code = code ∧
      o.station_id = some station_id))).head? = some op)
    (hs : stationById db.stations station_id = some s)
    (hq : resolveQueueStation db.stations s = some qsid)
    (hsel : (orderByQueue (groupWaiting db s qsid)).head? = some m) :
    call_next_customer db now station_id code hok =
      (CallResult.called m.customer_number, callNextState db now station_id s m hok) := by
  unfold call_next_customer callNextState
  simp only [hop, hs, hq, hsel]

/-- Members of the call-next eligible set are waiting entries of the
database. -/
theorem mem_groupWaiting (db : DB) (s : Station) (qsid : Nat) (e : Entry)
    (he : e ∈ groupWaiting db s qsid) :
    e ∈ db.entries ∧ e.status = Status.waiting := by
  unfold groupWaiting at he
  rcases hgr : s.queue_group_id with _ | g
  · simp only [hgr] at he
    have hm := List.mem_filter.mp he
    have hp := of_decide_eq_true hm.2
    exact ⟨hm.1, hp.2⟩
  · simp only [hgr] at he
    have hm := List.mem_filter.mp he
    have hp := of_decide_eq_true hm.2
    exact ⟨hm.1, hp.1⟩

/-- Mapping twice, membership forward. -/
theorem mem_map_map {α : Type} (f g : α → α) (l : List α) (e : α) (he : e ∈ l) :
    g (f e) ∈ (l.map f).map g :=
  List.mem_map_of_mem g (List.mem_map_of_mem f he)

/-- Mapping twice, membership backward. -/
theorem exists_of_mem_map_map {α : Type} (f g : α → α) (l : List α) (x : α)
    (hx : x ∈ (l.map f).map g) : ∃ e ∈ l, x = g (f e) := by
  rcases List.mem_map.mp hx with ⟨y, hy, rfl⟩
  rcases List.mem_map.mp hy with ⟨e, he, rfl⟩
  exact ⟨e, he, rfl⟩

/-- The completed-update keeps the row id. -/
theorem completeCalledAt_id (sid now : Nat) (e : Entry) :
    (completeCalledAt sid now e).id = e.id := by
  unfold completeCalledAt
  split <;> rfl

/-- The called-update keeps the row id. -/
theorem callEntry_id (mid sid now : Nat) (e : Entry) :
    (callEntry mid sid now e).id = e.id := by
  unfold callEntry
  split <;> rfl

/-- Rows not called at the station are untouched by the completed-update. -/
theorem completeCalledAt_eq_of_not (sid now : Nat) (e : Entry)
    (h : ¬(e.station_id = sid ∧ e.status = Status.called)) :
    completeCalledAt sid now e = e := by
  unfold completeCalledAt
  rw [if_neg h]

/-- Rows with a different id are untouched by the called-update. -/
theorem callEntry_eq_of_ne (mid sid now : Nat) (e : Entry) (h : ¬e.id = mid) :
    callEntry mid sid now e = e := by
  unfold callEntry
  rw [if_neg h]

/-- Entries of the call-next post-state: the two updates, and (grouped
only) the delete of the customer's other waiting rows. -/
theorem callNext_entries_eq (db : DB) (now station_id : Nat) (s : Station)
    (m : Entry) (hok : Bool) :
    (callNextState db now station_id s m hok).entries =
      (match s.queue_group_id with
       | some _ =>
          ((db.entries.map (completeCalledAt station_id now)).map
            (callEntry m.id station_id now)).filter
            (notOtherWaiting m.customer_number station_id)
       | none =>
          (db.entries.map (completeCalledAt station_id now)).map
            (callEntry m.id station_id now)) := by
  unfold callNextState
  rcases hgr : s.queue_group_id with _ | g <;>
    simp only [hgr, log_to_history_entries]

/-- History of the call-next post-state: the `called` record appended
when the history write succeeds. -/
theorem callNext_history_eq (db : DB) (now station_id : Nat) (s : Station)
    (m : Entry) (hok : Bool) :
    (callNextState db now station_id s m hok).history =
      db.history ++ (if hok then
        [⟨m.customer_number, station_id, stationNameOr db station_id,
          Status.called, "called", now⟩] else []) := by
  unfold callNextState
  rcases hgr : s.queue_group_id with _ | g <;>
    simp only [hgr, log_to_history_history]

/-- C5 (amended): a successful call-next at station S, selecting entry
`m`, atomically (a) completes every entry called at S, (b) calls `m` at S
reassigning its station id, (c) when S is grouped deletes every other
waiting entry with the same customer number at ANY other station (the
source does not restrict the delete to the group's stations; ungrouped S
deletes nothing), (d) appends the `called` history record (best effort);
rows matching none of these descriptions survive unchanged and no row
appears from nowhere. -/
theorem call_next_state_effects (db : DB) (now station_id : Nat) (code : String)
    (hok : Bool) (op : Operator) (s : Station) (qsid : Nat) (m : Entry)
    (hop : (db.operators.filter (fun o => decide (o.code = code ∧
      o.station_id = some station_id))).head? = some op)
    (hs : stationById db.stations station_id = some s)
    (hq : resolveQueueStation db.stations s = some qsid)
    (hnodup : (db.entries.map Entry.id).Nodup)
    (hsel : (orderByQueue (groupWaiting db s qsid)).head? = some m) :
    (call_next_customer db now station_id code hok).fst =
      CallResult.called m.customer_number ∧
    m ∈ db.entries ∧ m.status = Status.waiting ∧
    (∀ e ∈ db.entries,
      (e.station_id = station_id → e.status = Status.called →
        ({e with status := Status.completed, completed_at := some now} : Entry) ∈
          (call_next_customer db now station_id code hok).snd.entries) ∧
      (e.id = m.id →
        ({e with status := Status.called, called_at := some now, station_id := station_id} : Entry) ∈
          (call_next_customer db now station_id code hok).snd.entries) ∧
      (s.queue_group_id ≠ none → e.id ≠ m.id →
        e.customer_number = m.customer_number → e.station_id ≠ station_id →
        e.status = Status.waiting →
        ∀ e' ∈ (call_next_customer db now station_id code hok).snd.entries,
          e'.id ≠ e.id) ∧
      (e.id ≠ m.id → ¬(e.station_id = station_id ∧ e.status = Status.called) →
        ¬(s.queue_group_id ≠ none ∧ e.customer_number = m.customer_number ∧
          e.station_id ≠ station_id ∧ e.status = Status.waiting) →
        e ∈ (call_next_customer db now station_id code hok).snd.entries)) ∧
    (∀ e' ∈ (call_next_customer db now station_id code hok).snd.entries,
      ∃ e ∈ db.entries, e'.id = e.id) ∧
    (call_next_customer db now station_id code hok).snd.history =
      db.history ++ (if hok then
        [⟨m.customer_number, station_id, stationNameOr db station_id,
          Status.called, "called", now⟩] else []) := by
  have hcall := call_next_eq_called db now station_id code hok op s qsid m hop hs hq hsel
  have hmgw : m ∈ groupWaiting db s qsid :=
    (List.perm_insertionSort entryLe (groupWaiting db s qsid)).subset
      (List.mem_of_mem_head? hsel)
  have hmdb := mem_groupWaiting db s qsid m hmgw
  have hinj := List.inj_on_of_nodup_map hnodup
  have hF : (call_next_customer db now station_id code hok).fst =
      CallResult.called m.customer_number := by
    rw [hcall]
  have hE : (call_next_customer db now station_id code hok).snd.entries =
      (match s.queue_group_id with
       | some _ =>
          ((db.entries.map (completeCalledAt station_id now)).map
            (callEntry m.id station_id now)).filter
            (notOtherWaiting m.customer_number station_id)
       | none =>
          (db.entries.map (completeCalledAt station_id now)).map
            (callEntry m.id station_id now)) := by
    rw [hcall]
    exact callNext_entries_eq db now station_id s m hok
  have hH : (call_next_customer db now station_id code hok).snd.history =
      db.history ++ (if hok then
        [⟨m.customer_number, station_id, stationNameOr db station_id,
          Status.called, "called", now⟩] else []) := by
    rw [hcall]
    exact callNext_history_eq db now station_id s m hok
  have hidc : ∀ x : Entry,
      (callEntry m.id station_id now (completeCalledAt station_id now x)).id = x.id := by
    intro x
    rw [callEntry_id, completeCalledAt_id]
  rcases hgr : s.queue_group_id with _ | g
  all_goals simp only [hgr] at hE
  -- ungrouped station: no delete step
  · refine ⟨hF, hmdb.1, hmdb.2, ?_, ?_, hH⟩
    · intro e he
      refine ⟨?_, ?_, ?_, ?_⟩
      · intro h1 h2
        have hne : ¬e.id = m.id := by
          intro hid
          have hem : e = m := hinj he hmdb.1 hid
          rw [hem, hmdb.2] at h2
          exact absurd h2 (by decide)
        have hstep : callEntry m.id station_id now (completeCalledAt station_id now e) =
            {e with status := Status.completed, completed_at := some now} := by
          unfold completeCalledAt
          rw [if_pos ⟨h1, h2⟩]
          exact callEntry_eq_of_ne _ _ _ _ hne
        rw [hE, ← hstep]
        exact mem_map_map _ _ _ e he
      · intro hid
        have hem : e = m := hinj he hmdb.1 hid
        have hf1 : completeCalledAt station_id now e = e := by
          apply completeCalledAt_eq_of_not
          rintro ⟨-, hc⟩
          rw [hem, hmdb.2] at hc
          exact absurd hc (by decide)
        have hstep : callEntry m.id station_id now (completeCalledAt station_id now e) =
            ({e with status := Status.called, called_at := some now, station_id := station_id} : Entry) := by
          rw [hf1]
          unfold callEntry
          rw [if_pos hid]
        rw [hE, ← hstep]
        exact mem_map_map _ _ _ e he
      · intro hgrne
        exact absurd rfl hgrne
      · intro hid hnc hnot
        have hstep : callEntry m.id station_id now (completeCalledAt station_id now e) = e := by
          rw [completeCalledAt_eq_of_not _ _ _ hnc]
          exact callEntry_eq_of_ne _ _ _ _ hid
        rw [hE, ← hstep]
        exact mem_map_map _ _ _ e he
    · intro e' he'
      rw [hE] at he'
      rcases exists_of_mem_map_map _ _ _ _ he' with ⟨x, hx, hxe⟩
      refine ⟨x, hx, ?_⟩
      rw [hxe]
      exact hidc x
  -- grouped station: delete of other waiting rows included
  · refine ⟨hF, hmdb.1, hmdb.2, ?_, ?_, hH⟩
    · intro e he
      refine ⟨?_, ?_, ?_, ?_⟩
      · intro h1 h2
        have hne : ¬e.id = m.id := by
          intro hid
          have hem : e = m := hinj he hmdb.1 hid
          rw [hem, hmdb.2] at h2
          exact absurd h2 (by decide)
        have hstep : callEntry m.id station_id now (completeCalledAt station_id now e) =
            {e with status := Status.completed, completed_at := some now} := by
          unfold completeCalledAt
          rw [if_pos ⟨h1, h2⟩]
          exact callEntry_eq_of_ne _ _ _ _ hne
        rw [hE]
        refine List.mem_filter.mpr ⟨?_, ?_⟩
        · rw [← hstep]
          exact mem_map_map _ _ _ e he
        · unfold notOtherWaiting
          simp
      · intro hid
        have hem : e = m := hinj he hmdb.1 hid
        have hf1 : completeCalledAt station_id now e = e := by
          apply completeCalledAt_eq_of_not
          rintro ⟨-, hc⟩
          rw [hem, hmdb.2] at hc
          exact absurd hc (by decide)
        have hstep : callEntry m.id station_id now (completeCalledAt station_id now e) =
            ({e with status := Status.called, called_at := some now, station_id := station_id} : Entry) := by
          rw [hf1]
          unfold callEntry
          rw [if_pos hid]
        rw [hE]
        refine List.mem_filter.mpr ⟨?_, ?_⟩
        · rw [← hstep]
          exact mem_map_map _ _ _ e he
        · unfold notOtherWaiting
          simp
      · intro hgrne hid hcust hst hw
        have hstep : callEntry m.id station_id now (completeCalledAt station_id now e) = e := by
          rw [completeCalledAt_eq_of_not _ _ _ (by rintro ⟨h1, -⟩; exact hst h1)]
          exact callEntry_eq_of_ne _ _ _ _ hid
        intro e' he' heq
        rw [hE] at he'
        have hpe' := List.mem_filter.mp he'
        rcases exists_of_mem_map_map _ _ _ _ hpe'.1 with ⟨x, hx, hxe⟩
        have hxid : e'.id = x.id := by rw [hxe]; exact hidc x
        have hxe2 : x = e := hinj hx he (by rw [← hxid, heq])
        have he'e : e' = e := by rw [hxe, hxe2, hstep]
        have hkeep := hpe'.2
        rw [he'e] at hkeep
        unfold notOtherWaiting at hkeep
        rw [decide_eq_true ⟨hcust, hst, hw⟩] at hkeep
        exact absurd hkeep (by decide)
      · intro hid hnc hnot
        have hdel : ¬(e.customer_number = m.customer_number ∧
            e.station_id ≠ station_id ∧ e.status = Status.waiting) := by
          intro hc
          exact hnot ⟨Option.some_ne_none g, hc.1, hc.2.1, hc.2.2⟩
        have hstep : callEntry m.id station_id now (completeCalledAt station_id now e) = e := by
          rw [completeCalledAt_eq_of_not _ _ _ hnc]
          exact callEntry_eq_of_ne _ _ _ _ hid
        rw [hE]
        refine List.mem_filter.mpr ⟨?_, ?_⟩
        · rw [← hstep]
          exact mem_map_map _ _ _ e he
        · unfold notOtherWaiting
          rw [decide_eq_false hdel]
          rfl
    · intro e' he'
      rw [hE] at he'
      have hpe' := List.mem_filter.mp he'
      rcases exists_of_mem_map_map _ _ _ _ hpe'.1 with ⟨x, hx, hxe⟩
      refine ⟨x, hx, ?_⟩
      rw [hxe]
      exact hidc x

/-- The entry call-next selects in the counterexample database. -/
def cexSelected : Entry := ⟨1, 2, 555, Status.waiting, 1, 5, none, none, none, none⟩

/-- Witness for C5 (amended): the effects theorem applied to the concrete
two-entry database `cexDB` at grouped station 2. -/
theorem call_next_state_effects_witness :
    (call_next_customer cexDB 9 2 "op2" true).fst =
      CallResult.called cexSelected.customer_number ∧
    cexSelected ∈ cexDB.entries ∧ cexSelected.status = Status.waiting ∧
    (∀ e ∈ cexDB.entries,
      (e.station_id = 2 → e.status = Status.called →
        ({e with status := Status.completed, completed_at := some 9} : Entry) ∈
          (call_next_customer cexDB 9 2 "op2" true).snd.entries) ∧
      (e.id = cexSelected.id →
        ({e with status := Status.called, called_at := some 9, station_id := 2} : Entry) ∈
          (call_next_customer cexDB 9 2 "op2" true).snd.entries) ∧
      (demoStation2.queue_group_id ≠ none → e.id ≠ cexSelected.id →
        e.customer_number = cexSelected.customer_number → e.station_id ≠ 2 →
        e.status = Status.waiting →
        ∀ e' ∈ (call_next_customer cexDB 9 2 "op2" true).snd.entries,
          e'.id ≠ e.id) ∧
      (e.id ≠ cexSelected.id → ¬(e.station_id = 2 ∧ e.status = Status.called) →
        ¬(demoStation2.queue_group_id ≠ none ∧
          e.customer_number = cexSelected.customer_number ∧
          e.station_id ≠ 2 ∧ e.status = Status.waiting) →
        e ∈ (call_next_customer cexDB 9 2 "op2" true).snd.entries)) ∧
    (∀ e' ∈ (call_next_customer cexDB 9 2 "op2" true).snd.entries,
      ∃ e ∈ cexDB.entries, e'.id = e.id) ∧
    (call_next_customer cexDB 9 2 "op2" true).snd.history =
      cexDB.history ++ (if true then
        [⟨cexSelected.customer_number, 2, stationNameOr cexDB 2,
          Status.called, "called", 9⟩] else []) :=
  call_next_state_effects cexDB 9 2 "op2" true ⟨1, "op2", some 2, "Op Two", false⟩
    demoStation2 2 cexSelected (by decide) (by decide) (by decide) (by decide) (by decide)

/-- Outcome of `/api/insert-customer-at-position`. -/
inductive InsertResult where
  | invalidPosition
  | stationNotFound
  | internalError
  | inserted
deriving DecidableEq, Repr

/-- The waiting list of a station as read with `ORDER BY position ASC,
created_at ASC` (app.py lines 863-867 and the center view). -/
def waitingQueue (db : DB) (sid : Nat) : List Entry :=
  orderByQueue (db.entries.filter (fun e =>
    decide (e.station_id = sid ∧ e.status = Status.waiting)))

/-- The `(id, new_position)` pairs of the renumbering loop (app.py lines
871-877): Python `new_position = i + 2 if i >= position - 1 else i + 1`
over `enumerate(queue)`. -/
def renumberUpdates (queue : List Entry) (position : Int) : List (Nat × Int) :=
  queue.enum.map (fun ie =>
    (ie.2.id, if position - 1 ≤ (ie.1 : Int) then (ie.1 : Int) + 2
      else (ie.1 : Int) + 1))

/-- Sequential `UPDATE queue_entries SET position = ? WHERE id = ?`
statements applied to the table. -/
def applyUpdates (entries : List Entry) (updates : List (Nat × Int)) : List Entry :=
  updates.foldl (fun acc u =>
    acc.map (fun e => if e.id = u.1 then {e with position := u.2} else e)) entries

/-- `/api/insert-customer-at-position` (app.py lines 805-897): reject
position < 1, resolve the queue station, delete the customer's active
entry anywhere (unconditional override), renumber the waiting queue
around the requested slot, and insert the new waiting row there.  This
route writes no history. -/
def insert_customer_at_position (db : DB) (now : Nat)
    (station_id customer_number : Nat) (position : Int) : InsertResult × DB :=
  if position < 1 then (InsertResult.invalidPosition, db)
  else
    match stationById db.stations station_id with
    | none => (InsertResult.stationNotFound, db)
    | some station =>
      match resolveQueueStation db.stations station with
      | none => (InsertResult.internalError, db)
      | some queue_station_id =>
        let db1 :=
          match (activeAnywhere db.entries customer_number).head? with
          | some existing =>
              {db with entries := db.entries.filter (fun e =>
                !(decide (e.customer_number = customer_number ∧
                  e.station_id = existing.station_id ∧ e.status ≠ Status.completed)))}
          | none => db
        let queue := waitingQueue db1 queue_station_id
        let entries1 := applyUpdates db1.entries (renumberUpdates queue position)
        let newEntry : Entry :=
          ⟨db.nextId, queue_station_id, customer_number, Status.waiting,
            position, now, none, none, none, none⟩
        (InsertResult.inserted,
         {db with entries := entries1 ++ [newEntry], nextId := db.nextId + 1})

/-- State for the C7 counterexample: two waiting entries at station 1
with gapped positions 5 and 9. -/
def cex7DB : DB :=
  ⟨demoStations, demoOperators,
   [⟨1, 1, 10, Status.waiting, 5, 1, none, none, none, none⟩,
    ⟨2, 1, 11, Status.waiting, 9, 2, none, none, none, none⟩], [], 3⟩

/-- C7 counterexample: inserting customer 42 at position 1 of station 1
renumbers the gapped queue contiguously, so the entry that previously had
position 5 ends with position 2, not 5 + 1 as the claim requires. -/
theorem insert_at_position_not_plus_one :
    (insert_customer_at_position cex7DB 30 1 42 1).fst = InsertResult.inserted ∧
    (⟨1, 1, 10, Status.waiting, 5, 1, none, none, none, none⟩ : Entry) ∈ cex7DB.entries ∧
    (⟨1, 1, 10, Status.waiting, 2, 1, none, none, none, none⟩ : Entry) ∈
      (insert_customer_at_position cex7DB 30 1 42 1).snd.entries ∧
    (∀ e ∈ (insert_customer_at_position cex7DB 30 1 42 1).snd.entries,
      e.id = 1 → ¬e.position = 5 + 1) := by
  decide

/-- The second component of an `enumFrom` element is a list member. -/
theorem snd_mem_of_mem_enumFrom {α : Type} (x : Nat × α) (xs : List α) (j : Nat)
    (h : x ∈ xs.enumFrom j) : x.2 ∈ xs := by
  have h1 := List.mem_enumFrom h
  rw [h1.2.2]
  exact List.getElem_mem _

/-- The sequential id-targeted updates act entrywise on the table. -/
theorem applyUpdates_eq_map (entries : List Entry) (updates : List (Nat × Int)) :
    applyUpdates entries updates = entries.map (fun e =>
      updates.foldl (fun x u => if x.id = u.1 then {x with position := u.2} else x) e) := by
  induction updates generalizing entries with
  | nil => simp [applyUpdates]
  | cons u us ih =>
      unfold applyUpdates at *
      simp only [List.foldl_cons]
      rw [ih, List.map_map]
      rfl

/-- The entrywise update fold only ever changes the position field. -/
theorem perEntryFold_fields (e : Entry) (updates : List (Nat × Int)) :
    ∃ p : Int, updates.foldl
      (fun x v => if x.id = v.1 then {x with position := v.2} else x) e =
      {e with position := p} := by
  induction updates generalizing e with
  | nil => exact ⟨e.position, rfl⟩
  | cons u us ih =>
      simp only [List.foldl_cons]
      rcases ih (if e.id = u.1 then {e with position := u.2} else e) with ⟨p, hp⟩
      refine ⟨p, ?_⟩
      rw [hp]
      split <;> rfl

/-- An entry matching no update id is untouched by the fold. -/
theorem perEntryFold_not_mem (e : Entry) (updates : List (Nat × Int))
    (h : ∀ v ∈ updates, ¬e.id = v.1) :
    updates.foldl (fun x v => if x.id = v.1 then {x with position := v.2} else x) e = e := by
  induction updates with
  | nil => rfl
  | cons u us ih =>
      simp only [List.foldl_cons]
      rw [if_neg (h u (List.mem_cons_self u us))]
      exact ih (fun v hv => h v (List.mem_cons_of_mem u hv))

/-- At requested position 1 every queue index is shifted to `i + 2`. -/
theorem renumberUpdates_one (q : List Entry) :
    renumberUpdates q 1 = q.enum.map (fun ie => (ie.2.id, (ie.1 : Int) + 2)) := by
  unfold renumberUpdates
  apply List.map_congr_left
  intro ie hie
  rw [if_pos (by omega : (1 : Int) - 1 ≤ (ie.1 : Int))]

/-- Folding the index-shift updates over the `i`-th queue entry yields
that entry with position `n + i + 2`, for queues with distinct ids. -/
theorem perEntryFold_enumFrom (q : List Entry) (n i : Nat)
    (hnd : (q.map Entry.id).Nodup) (hi : i < q.length) :
    ((List.enumFrom n q).map (fun ie => (ie.2.id, (ie.1 : Int) + 2))).foldl
      (fun x v => if x.id = v.1 then {x with position := v.2} else x) (q.get ⟨i, hi⟩) =
    {q.get ⟨i, hi⟩ with position := ((n + i : Nat) : Int) + 2} := by
  induction q generalizing n i with
  | nil => simp at hi
  | cons a l ih =>
      rw [List.enumFrom_cons]
      simp only [List.map_cons, List.foldl_cons]
      rcases i with _ | j
      · simp only [show (a :: l).get ⟨0, hi⟩ = a from rfl]
        rw [if_pos trivial]
        have hna : ∀ v ∈ (List.enumFrom (n + 1) l).map
            (fun ie => (ie.2.id, (ie.1 : Int) + 2)),
            ¬({a with position := (n : Int) + 2} : Entry).id = v.1 := by
          intro v hv
          rcases List.mem_map.mp hv with ⟨ie, hie, rfl⟩
          have h2 : ie.2 ∈ l := snd_mem_of_mem_enumFrom ie l (n + 1) hie
          have h3 : a.id ∉ l.map Entry.id := (List.nodup_cons.mp hnd).1
          intro hcon
          exact h3 (hcon ▸ List.mem_map_of_mem Entry.id h2)
        rw [perEntryFold_not_mem _ _ hna]
        have hnn : ((n + 0 : Nat) : Int) = (n : Int) := by omega
        rw [hnn]
      · have hj : j < l.length := by
          simpa using hi
        have hgj : (a :: l).get ⟨j + 1, hi⟩ = l.get ⟨j, hj⟩ := rfl
        rw [hgj]
        have hne : ¬(l.get ⟨j, hj⟩).id = a.id := by
          intro hcon
          exact (List.nodup_cons.mp hnd).1
            (hcon ▸ List.mem_map_of_mem Entry.id (List.get_mem l j hj))
        rw [if_neg hne]
        rw [ih (n + 1) j (List.nodup_cons.mp hnd).2 hj]
        have hnn : ((n + 1 + j : Nat) : Int) = ((n + (j + 1) : Nat) : Int) := by omega
        rw [hnn]

/-- Branch equation: a valid insert with no prior active entry for the
customer renumbers the waiting queue and appends the new row. -/
theorem insert_eq_shape (db : DB) (now sid c : Nat) (pos : Int)
    (s : Station) (qsid : Nat)
    (hpos : ¬pos < 1)
    (hs : stationById db.stations sid = some s)
    (hq : resolveQueueStation db.stations s = some qsid)
    (hfree : (activeAnywhere db.entries c).head? = none) :
    insert_customer_at_position db now sid c pos =
      (InsertResult.inserted,
       DB.mk db.stations db.operators
        (applyUpdates db.entries (renumberUpdates (waitingQueue db qsid) pos) ++
          [⟨db.nextId, qsid, c, Status.waiting, pos, now, none, none, none, none⟩])
        db.history (db.nextId + 1)) := by
  unfold insert_customer_at_position
  rw [if_neg hpos]
  simp only [hs, hq, hfree]

/-- C7 (amended): InsertAtPosition rejects every position < 1 with
`invalidPosition` and no mutation; and inserting customer C at position 1
(C not active anywhere) makes C's new entry first in the waiting order,
while the previously-waiting entries keep their relative order and are
renumbered to the consecutive positions 2, 3, ... (the i-th sorted entry
gets position i + 2) — each previous position grows by exactly one only
when the old positions were already the contiguous sequence 1..n. -/
theorem insert_at_position_effects (db : DB) (now sid c : Nat)
    (s : Station) (qsid : Nat)
    (hs : stationById db.stations sid = some s)
    (hq : resolveQueueStation db.stations s = some qsid)
    (hfree : (activeAnywhere db.entries c).head? = none)
    (hnodup : (db.entries.map Entry.id).Nodup) :
    (∀ pos : Int, pos < 1 →
      insert_customer_at_position db now sid c pos = (InsertResult.invalidPosition, db)) ∧
    (insert_customer_at_position db now sid c 1).fst = InsertResult.inserted ∧
    (⟨db.nextId, qsid, c, Status.waiting, 1, now, none, none, none, none⟩ : Entry) ∈
      (insert_customer_at_position db now sid c 1).snd.entries ∧
    (∀ i, ∀ hi : i < (waitingQueue db qsid).length,
      ({(waitingQueue db qsid).get ⟨i, hi⟩ with position := (i : Int) + 2} : Entry) ∈
        (insert_customer_at_position db now sid c 1).snd.entries) ∧
    (waitingQueue (insert_customer_at_position db now sid c 1).snd qsid).head? =
      some ⟨db.nextId, qsid, c, Status.waiting, 1, now, none, none, none, none⟩ ∧
    ((∀ i, ∀ hi : i < (waitingQueue db qsid).length,
        ((waitingQueue db qsid).get ⟨i, hi⟩).position = (i : Int) + 1) →
      ∀ i, ∀ hi : i < (waitingQueue db qsid).length,
        ({(waitingQueue db qsid).get ⟨i, hi⟩ with
          position := ((waitingQueue db qsid).get ⟨i, hi⟩).position + 1} : Entry) ∈
          (insert_customer_at_position db now sid c 1).snd.entries) := by
  have hshape := insert_eq_shape db now sid c 1 s qsid (by omega) hs hq hfree
  have hperm : (waitingQueue db qsid).Perm (db.entries.filter (fun e =>
      decide (e.station_id = qsid ∧ e.status = Status.waiting))) :=
    List.perm_insertionSort entryLe _
  have hnodup_q : ((waitingQueue db qsid).map Entry.id).Nodup := by
    have hsub : ((db.entries.filter (fun e =>
        decide (e.station_id = qsid ∧ e.status = Status.waiting))).map Entry.id).Sublist
        (db.entries.map Entry.id) := (List.filter_sublist _).map Entry.id
    exact ((hperm.map Entry.id).nodup_iff).mpr (hnodup.sublist hsub)
  have hup : renumberUpdates (waitingQueue db qsid) 1 =
      (List.enumFrom 0 (waitingQueue db qsid)).map
        (fun ie => (ie.2.id, (ie.1 : Int) + 2)) := renumberUpdates_one _
  have h4 : ∀ i, ∀ hi : i < (waitingQueue db qsid).length,
      ({(waitingQueue db qsid).get ⟨i, hi⟩ with position := (i : Int) + 2} : Entry) ∈
        (insert_customer_at_position db now sid c 1).snd.entries := by
    intro i hi
    rw [hshape]
    apply List.mem_append_left
    rw [applyUpdates_eq_map]
    have hx : (waitingQueue db qsid).get ⟨i, hi⟩ ∈ db.entries := by
      have h1 : (waitingQueue db qsid).get ⟨i, hi⟩ ∈ waitingQueue db qsid :=
        List.get_mem _ i hi
      exact (List.mem_filter.mp (hperm.subset h1)).1
    refine List.mem_map.mpr ⟨(waitingQueue db qsid).get ⟨i, hi⟩, hx, ?_⟩
    rw [hup, perEntryFold_enumFrom (waitingQueue db qsid) 0 i hnodup_q hi]
    have hnn : ((0 + i : Nat) : Int) = (i : Int) := by omega
    rw [hnn]
  have hwmem : ∀ x ∈ (insert_customer_at_position db now sid c 1).snd.entries,
      x.station_id = qsid → x.status = Status.waiting →
      x = (⟨db.nextId, qsid, c, Status.waiting, 1, now, none, none, none, none⟩ : Entry) ∨
      ∃ i, ∃ hi : i < (waitingQueue db qsid).length,
        x = {(waitingQueue db qsid).get ⟨i, hi⟩ with position := (i : Int) + 2} := by
    intro x hx hxs hxw
    rw [hshape] at hx
    rcases List.mem_append.mp hx with hx | hx
    · right
      rw [applyUpdates_eq_map] at hx
      rcases List.mem_map.mp hx with ⟨y, hy, hyx⟩
      rcases perEntryFold_fields y (renumberUpdates (waitingQueue db qsid) 1) with ⟨p, hp⟩
      have hyq : y ∈ waitingQueue db qsid := by
        apply hperm.mem_iff.mpr
        rw [List.mem_filter]
        refine ⟨hy, decide_eq_true ?_⟩
        have h1 : y.station_id = x.station_id := by rw [← hyx, hp]
        have h2 : y.status = x.status := by rw [← hyx, hp]
        exact ⟨h1.trans hxs, h2.trans hxw⟩
      rcases List.get_of_mem hyq with ⟨⟨i, hi⟩, hget⟩
      refine ⟨i, hi, ?_⟩
      rw [hget, ← hyx, hup]
      have := perEntryFold_enumFrom (waitingQueue db qsid) 0 i hnodup_q hi
      rw [hget] at this
      rw [this]
      have hnn : ((0 + i : Nat) : Int) = (i : Int) := by omega
      rw [hnn]
    · left
      simpa using hx
  refine ⟨?_, ?_, ?_, h4, ?_, ?_⟩
  · intro pos hlt
    unfold insert_customer_at_position
    rw [if_pos hlt]
  · rw [hshape]
  · rw [hshape]
    exact List.mem_append_right _ (List.mem_singleton_self _)
  · unfold waitingQueue
    apply orderByQueue_head_unique_min
    · rw [List.mem_filter]
      refine ⟨?_, decide_eq_true ⟨rfl, rfl⟩⟩
      rw [hshape]
      exact List.mem_append_right _ (List.mem_singleton_self _)
    · intro e he hne
      have hef := List.mem_filter.mp he
      have hprops := of_decide_eq_true hef.2
      rcases hwmem e hef.1 hprops.1 hprops.2 with h | ⟨i, hi, hei⟩
      · exact absurd h hne
      · unfold entryLt
        left
        rw [hei]
        show (1 : Int) < (i : Int) + 2
        omega
  · intro hcontig i hi
    have heq : ((waitingQueue db qsid).get ⟨i, hi⟩).position + 1 = (i : Int) + 2 := by
      rw [hcontig i hi]
      omega
    rw [heq]
    exact h4 i hi

/-- Witness for C7 (amended): inserting customer 42 at position 1 of
grouped station 3 in the demo database. -/
theorem insert_at_position_effects_witness :
    (∀ pos : Int, pos < 1 →
      insert_customer_at_position demoDB2 31 3 42 pos =
        (InsertResult.invalidPosition, demoDB2)) ∧
    (insert_customer_at_position demoDB2 31 3 42 1).fst = InsertResult.inserted ∧
    (⟨demoDB2.nextId, 2, 42, Status.waiting, 1, 31, none, none, none, none⟩ : Entry) ∈
      (insert_customer_at_position demoDB2 31 3 42 1).snd.entries ∧
    (∀ i, ∀ hi : i < (waitingQueue demoDB2 2).length,
      ({(waitingQueue demoDB2 2).get ⟨i, hi⟩ with position := (i : Int) + 2} : Entry) ∈
        (insert_customer_at_position demoDB2 31 3 42 1).snd.entries) ∧
    (waitingQueue (insert_customer_at_position demoDB2 31 3 42 1).snd 2).head? =
      some ⟨demoDB2.nextId, 2, 42, Status.waiting, 1, 31, none, none, none, none⟩ ∧
    ((∀ i, ∀ hi : i < (waitingQueue demoDB2 2).length,
        ((waitingQueue demoDB2 2).get ⟨i, hi⟩).position = (i : Int) + 1) →
      ∀ i, ∀ hi : i < (waitingQueue demoDB2 2).length,
        ({(waitingQueue demoDB2 2).get ⟨i, hi⟩ with
          position := ((waitingQueue demoDB2 2).get ⟨i, hi⟩).position + 1} : Entry) ∈
          (insert_customer_at_position demoDB2 31 3 42 1).snd.entries) :=
  insert_at_position_effects demoDB2 31 3 42 demoStation3 2
    (by decide) (by decide) (by decide) (by decide)

/-- Outcome of `/api/finish-customer`. -/
inductive FinishResult where
  | notInService
  | finished
deriving DecidableEq, Repr

/-- `/api/finish-customer` (app.py lines 680-748): find the customer's
`called` entry, transition all their called entries to `completed` and
then the completed ones to `finished`, logging one history record per
transition (best effort, station row permitting). -/
def finish_customer (db : DB) (now c : Nat) (hok : Bool) : FinishResult × DB :=
  match (db.entries.filter (fun e => decide (e.customer_number = c ∧
      e.status = Status.called))).head? with
  | none => (FinishResult.notInService, db)
  | some current =>
    let stationRow := stationById db.stations current.station_id
    let entries1 := db.entries.map (fun e =>
      if e.customer_number = c ∧ e.status = Status.called then
        {e with status := Status.completed, completed_at := some now} else e)
    let db1 := {db with entries := entries1}
    let db2 :=
      match stationRow with
      | some station =>
          log_to_history hok db1 c current.station_id station.name
            Status.completed "completed" now
      | none => db1
    let entries2 := db2.entries.map (fun e =>
      if e.customer_number = c ∧ e.status = Status.completed then
        {e with status := Status.finished, finished_at := some now} else e)
    let db3 := {db2 with entries := entries2}
    let db4 :=
      match stationRow with
      | some station =>
          log_to_history hok db3 c current.station_id station.name
            Status.finished "finished" now
      | none => db3
    (FinishResult.finished, db4)

/-- Outcome of `/api/finish-station/release-customer`. -/
inductive ReleaseResult where
  | unauthorized
  | notFinished
  | released
deriving DecidableEq, Repr

/-- `/api/finish-station/release-customer` (app.py lines 1312-1373): any
valid operator may release; the customer's `finished` entries become
`released` with a history record (best effort). -/
def release_customer (db : DB) (now c : Nat) (operator_code : String)
    (hok : Bool) : ReleaseResult × DB :=
  match (db.operators.filter (fun o => decide (o.code = operator_code))).head? with
  | none => (ReleaseResult.unauthorized, db)
  | some _ =>
    match (db.entries.filter (fun e => decide (e.customer_number = c ∧
        e.status = Status.finished))).head? with
    | none => (ReleaseResult.notFinished, db)
    | some r =>
      let entries1 := db.entries.map (fun e =>
        if e.customer_number = c ∧ e.status = Status.finished then
          {e with status := Status.released, released_at := some now} else e)
      let db1 := {db with entries := entries1}
      let db2 :=
        match stationById db.stations r.station_id with
        | some station =>
            log_to_history hok db1 c r.station_id station.name
              Status.released "released" now
        | none => db1
      (ReleaseResult.released, db2)

/-- Outcome of `/api/transfer-to-poked`. -/
inductive TransferResult where
  | pokedNotFound
  | transferred
deriving DecidableEq, Repr

/-- `/api/transfer-to-poked` (app.py lines 1208-1261): find the station
named "פוקד 1", delete the customer's active entries everywhere, and
insert a fresh waiting entry there.  The INSERT names no position column,
so the row gets the schema default `position INTEGER DEFAULT 0` (app.py
line 128); the history row hardcodes the name "פוקד" (best effort). -/
def transfer_to_poked (db : DB) (now c : Nat) (hok : Bool) :
    TransferResult × DB :=
  match (db.stations.filter (fun st => decide (st.name = "פוקד 1"))).head? with
  | none => (TransferResult.pokedNotFound, db)
  | some poked_station =>
    let entries1 := db.entries.filter (fun e =>
      !(decide (e.customer_number = c ∧
        (e.status = Status.waiting ∨ e.status = Status.called))))
    let newEntry : Entry :=
      ⟨db.nextId, poked_station.id, c, Status.waiting, 0, now,
        none, none, none, none⟩
    let db1 := {db with entries := entries1 ++ [newEntry], nextId := db.nextId + 1}
    let db2 := log_to_history hok db1 c poked_station.id "פוקד"
      Status.waiting "transferred_to_poked" now
    (TransferResult.transferred, db2)

/-- Branch equation: no called entry, finish rejects with no mutation. -/
theorem finish_customer_none (db : DB) (now c : Nat) (hok : Bool)
    (hnone : (db.entries.filter (fun e => decide (e.customer_number = c ∧
      e.status = Status.called))).head? = none) :
    finish_customer db now c hok = (FinishResult.notInService, db) := by
  unfold finish_customer
  simp only [hnone]

/-- A found called entry makes finish succeed. -/
theorem finish_customer_some_fst (db : DB) (now c : Nat) (hok : Bool) (cur : Entry)
    (hcur : (db.entries.filter (fun e => decide (e.customer_number = c ∧
      e.status = Status.called))).head? = some cur) :
    (finish_customer db now c hok).fst = FinishResult.finished := by
  unfold finish_customer
  simp only [hcur]

/-- Entries after finish: the called-to-completed map then the
completed-to-finished map, for any history outcome. -/
theorem finish_customer_some_entries (db : DB) (now c : Nat) (hok : Bool) (cur : Entry)
    (hcur : (db.entries.filter (fun e => decide (e.customer_number = c ∧
      e.status = Status.called))).head? = some cur) :
    (finish_customer db now c hok).snd.entries =
      (db.entries.map (fun e =>
        if e.customer_number = c ∧ e.status = Status.called then
          {e with status := Status.completed, completed_at := some now} else e)).map (fun e =>
        if e.customer_number = c ∧ e.status = Status.completed then
          {e with status := Status.finished, finished_at := some now} else e) := by
  unfold finish_customer
  simp only [hcur]
  rcases hst : stationById db.stations cur.station_id with _ | st <;>
    simp only [hst, log_to_history_entries]

/-- History after a successful finish with the station row present: the
`completed` then `finished` records, when the history writes succeed. -/
theorem finish_customer_some_history (db : DB) (now c : Nat) (hok : Bool)
    (cur : Entry) (st : Station)
    (hcur : (db.entries.filter (fun e => decide (e.customer_number = c ∧
      e.status = Status.called))).head? = some cur)
    (hst : stationById db.stations cur.station_id = some st) :
    (finish_customer db now c hok).snd.history = db.history ++
      (if hok then
        [⟨c, cur.station_id, st.name, Status.completed, "completed", now⟩,
         ⟨c, cur.station_id, st.name, Status.finished, "finished", now⟩] else []) := by
  unfold finish_customer
  simp only [hcur, hst, log_to_history_history]
  rcases hok <;> simp [log_to_history]

/-- C8: FinishCustomer with no called entry fails with `notInService`
leaving the database untouched; otherwise it succeeds, each of the
customer's called entries ends `finished` with both `completed_at` and
`finished_at` stamped (called → completed → finished inside the one
operation), and one history record is appended per transition. -/
theorem finish_customer_spec (db : DB) (now c : Nat) (hok : Bool) :
    ((db.entries.filter (fun e => decide (e.customer_number = c ∧
        e.status = Status.called))).head? = none →
      finish_customer db now c hok = (FinishResult.notInService, db)) ∧
    (∀ cur, (db.entries.filter (fun e => decide (e.customer_number = c ∧
        e.status = Status.called))).head? = some cur →
      ∀ st, stationById db.stations cur.station_id = some st →
      (finish_customer db now c hok).fst = FinishResult.finished ∧
      (∀ e ∈ db.entries, e.customer_number = c → e.status = Status.called →
        ({e with status := Status.finished, completed_at := some now, finished_at := some now} : Entry) ∈
          (finish_customer db now c hok).snd.entries) ∧
      (finish_customer db now c hok).snd.history = db.history ++
        (if hok then
          [⟨c, cur.station_id, st.name, Status.completed, "completed", now⟩,
           ⟨c, cur.station_id, st.name, Status.finished, "finished", now⟩] else [])) := by
  refine ⟨finish_customer_none db now c hok, ?_⟩
  intro cur hcur st hst
  refine ⟨finish_customer_some_fst db now c hok cur hcur, ?_,
    finish_customer_some_history db now c hok cur st hcur hst⟩
  intro e he hec hecalled
  rw [finish_customer_some_entries db now c hok cur hcur]
  have hstep1 : (if e.customer_number = c ∧ e.status = Status.called then
      ({e with status := Status.completed, completed_at := some now} : Entry) else e) =
      {e with status := Status.completed, completed_at := some now} :=
    if_pos ⟨hec, hecalled⟩
  have hstep2 : (if ({e with status := Status.completed, completed_at := some now} : Entry).customer_number = c ∧
      ({e with status := Status.completed, completed_at := some now} : Entry).status = Status.completed then
      ({({e with status := Status.completed, completed_at := some now} : Entry) with
        status := Status.finished, finished_at := some now} : Entry)
      else ({e with status := Status.completed, completed_at := some now} : Entry)) =
      {e with status := Status.finished, completed_at := some now, finished_at := some now} :=
    if_pos ⟨hec, rfl⟩
  rw [← hstep2, ← hstep1]
  exact mem_map_map _ _ _ e he

/-- Demo database with customer 555 currently called at station 1. -/
def demoDB4 : DB :=
  ⟨demoStations, demoOperators,
   [⟨1, 1, 555, Status.called, 1, 5, some 6, none, none, none⟩], [], 2⟩

/-- Witness for C8: finishing called customer 555 in the demo database. -/
theorem finish_customer_spec_witness :
    ((demoDB4.entries.filter (fun e => decide (e.customer_number = 555 ∧
        e.status = Status.called))).head? = none →
      finish_customer demoDB4 40 555 true = (FinishResult.notInService, demoDB4)) ∧
    (∀ cur, (demoDB4.entries.filter (fun e => decide (e.customer_number = 555 ∧
        e.status = Status.called))).head? = some cur →
      ∀ st, stationById demoDB4.stations cur.station_id = some st →
      (finish_customer demoDB4 40 555 true).fst = FinishResult.finished ∧
      (∀ e ∈ demoDB4.entries, e.customer_number = 555 → e.status = Status.called →
        ({e with status := Status.finished, completed_at := some 40, finished_at := some 40} : Entry) ∈
          (finish_customer demoDB4 40 555 true).snd.entries) ∧
      (finish_customer demoDB4 40 555 true).snd.history = demoDB4.history ++
        (if true then
          [⟨555, cur.station_id, st.name, Status.completed, "completed", 40⟩,
           ⟨555, cur.station_id, st.name, Status.finished, "finished", 40⟩] else [])) :=
  finish_customer_spec demoDB4 40 555 true

/-- Branch equation: transfer with the poked station present. -/
theorem transfer_to_poked_eq (db : DB) (now c : Nat) (hok : Bool) (ps : Station)
    (hps : (db.stations.filter (fun st => decide (st.name = "פוקד 1"))).head? = some ps) :
    transfer_to_poked db now c hok =
      (TransferResult.transferred,
       log_to_history hok
        (DB.mk db.stations db.operators
          ((db.entries.filter (fun e =>
            !(decide (e.customer_number = c ∧
              (e.status = Status.waiting ∨ e.status = Status.called))))) ++
           [⟨db.nextId, ps.id, c, Status.waiting, 0, now, none, none, none, none⟩])
          db.history (db.nextId + 1))
        c ps.id "פוקד" Status.waiting "transferred_to_poked" now) := by
  unfold transfer_to_poked
  simp only [hps]

/-- C10: TransferToNamedStation inserts the new waiting entry with the
schema-default position 0, so against a target waiting list whose entries
were enqueued normally (positions ≥ 1) the transferred customer sorts
strictly ahead of every one of them and heads the waiting list. -/
theorem transfer_to_poked_jumps_queue (db : DB) (now c : Nat) (hok : Bool)
    (ps : Station)
    (hps : (db.stations.filter (fun st => decide (st.name = "פוקד 1"))).head? = some ps)
    (hpos : ∀ e ∈ db.entries, e.station_id = ps.id → e.status = Status.waiting →
      1 ≤ e.position) :
    (transfer_to_poked db now c hok).fst = TransferResult.transferred ∧
    (⟨db.nextId, ps.id, c, Status.waiting, 0, now, none, none, none, none⟩ : Entry) ∈
      (transfer_to_poked db now c hok).snd.entries ∧
    (∀ e ∈ (transfer_to_poked db now c hok).snd.entries, e.station_id = ps.id →
      e.status = Status.waiting → e.id ≠ db.nextId →
      entryLt (⟨db.nextId, ps.id, c, Status.waiting, 0, now, none, none, none, none⟩ : Entry) e) ∧
    (waitingQueue (transfer_to_poked db now c hok).snd ps.id).head? =
      some ⟨db.nextId, ps.id, c, Status.waiting, 0, now, none, none, none, none⟩ := by
  have heq := transfer_to_poked_eq db now c hok ps hps
  have hE : (transfer_to_poked db now c hok).snd.entries =
      (db.entries.filter (fun e =>
        !(decide (e.customer_number = c ∧
          (e.status = Status.waiting ∨ e.status = Status.called))))) ++
      [⟨db.nextId, ps.id, c, Status.waiting, 0, now, none, none, none, none⟩] := by
    rw [heq]
    exact log_to_history_entries hok _ c ps.id "פוקד" Status.waiting "transferred_to_poked" now
  have holdpos : ∀ e ∈ (db.entries.filter (fun e =>
      !(decide (e.customer_number = c ∧
        (e.status = Status.waiting ∨ e.status = Status.called))))),
      e.station_id = ps.id → e.status = Status.waiting →
      entryLt (⟨db.nextId, ps.id, c, Status.waiting, 0, now, none, none, none, none⟩ : Entry) e := by
    intro e he hes hew
    have hedb : e ∈ db.entries := (List.filter_sublist _).subset he
    have h1 := hpos e hedb hes hew
    unfold entryLt
    left
    show (0 : Int) < e.position
    omega
  refine ⟨by rw [heq], ?_, ?_, ?_⟩
  · rw [hE]
    exact List.mem_append_right _ (List.mem_singleton_self _)
  · intro e he hes hew hne
    rw [hE] at he
    rcases List.mem_append.mp he with he | he
    · exact holdpos e he hes hew
    · simp only [List.mem_singleton] at he
      rw [he] at hne
      simp at hne
  · unfold waitingQueue
    apply orderByQueue_head_unique_min
    · rw [List.mem_filter]
      refine ⟨?_, decide_eq_true ⟨rfl, rfl⟩⟩
      rw [hE]
      exact List.mem_append_right _ (List.mem_singleton_self _)
    · intro e he hne
      have hef := List.mem_filter.mp he
      have hprops := of_decide_eq_true hef.2
      have he2 := hef.1
      rw [hE] at he2
      rcases List.mem_append.mp he2 with h | h
      · exact holdpos e h hprops.1 hprops.2
      · simp only [List.mem_singleton] at h
        exact absurd h hne

/-- Stations including the hardcoded transfer target "פוקד 1". -/
def pokedStations : List Station :=
  [⟨1, "A", none, false, false⟩, ⟨2, "B", some "G", false, false⟩,
   ⟨3, "C", some "G", false, false⟩, ⟨4, "פוקד 1", none, false, false⟩]

/-- Demo database with a normally-enqueued waiting entry at the poked
station and customer 77 waiting at station 2. -/
def pokedDB : DB :=
  ⟨pokedStations, demoOperators,
   [⟨1, 4, 9, Status.waiting, 1, 2, none, none, none, none⟩,
    ⟨2, 2, 77, Status.waiting, 1, 3, none, none, none, none⟩], [], 3⟩

/-- Witness for C10: transferring customer 77 to the poked station puts
them (position 0) ahead of the position-1 waiter. -/
theorem transfer_to_poked_jumps_queue_witness :
    (transfer_to_poked pokedDB 50 77 true).fst = TransferResult.transferred ∧
    (⟨pokedDB.nextId, 4, 77, Status.waiting, 0, 50, none, none, none, none⟩ : Entry) ∈
      (transfer_to_poked pokedDB 50 77 true).snd.entries ∧
    (∀ e ∈ (transfer_to_poked pokedDB 50 77 true).snd.entries, e.station_id = 4 →
      e.status = Status.waiting → e.id ≠ pokedDB.nextId →
      entryLt (⟨pokedDB.nextId, 4, 77, Status.waiting, 0, 50, none, none, none, none⟩ : Entry) e) ∧
    (waitingQueue (transfer_to_poked pokedDB 50 77 true).snd 4).head? =
      some ⟨pokedDB.nextId, 4, 77, Status.waiting, 0, 50, none, none, none, none⟩ :=
  transfer_to_poked_jumps_queue pokedDB 50 77 true ⟨4, "פוקד 1", none, false, false⟩
    (by decide) (by decide)

/-- Enqueue is blind to the history-write outcome except in `history`. -/
theorem add_entry_hok_invariant (db : DB) (now sid c : Nat) (t hok : Bool) :
    (add_entry db now sid c t hok).fst = (add_entry db now sid c t true).fst ∧
    (add_entry db now sid c t hok).snd.entries =
      (add_entry db now sid c t true).snd.entries := by
  rcases hs : stationById db.stations sid with _ | s
  · unfold add_entry
    simp only [hs]
    constructor <;> trivial
  rcases hq : resolveQueueStation db.stations s with _ | qsid
  · unfold add_entry
    simp only [hs, hq]
    constructor <;> trivial
  rcases hemp : (activeAt db.entries qsid c).isEmpty with _ | _
  · rw [add_entry_eq_dup db now sid c t hok s qsid hs hq hemp,
      add_entry_eq_dup db now sid c t true s qsid hs hq hemp]
    constructor <;> trivial
  rcases hex : (activeAnywhere db.entries c).head? with _ | ex
  · rw [add_entry_eq_fresh db now sid c t hok s qsid hs hq hemp hex,
      add_entry_eq_fresh db now sid c t true s qsid hs hq hemp hex]
    refine ⟨?_, ?_⟩
    · rw [addEntryInsert_fst, addEntryInsert_fst]
    · rw [addEntryInsert_entries, addEntryInsert_entries]
  rcases t with _ | _
  · rcases hos : stationById db.stations ex.station_id with _ | os
    · rw [add_entry_eq_confnone db now sid c hok s qsid ex hs hq hemp hex hos,
        add_entry_eq_confnone db now sid c true s qsid ex hs hq hemp hex hos]
      constructor <;> trivial
    · rw [add_entry_eq_conflict db now sid c hok s qsid ex os hs hq hemp hex hos,
        add_entry_eq_conflict db now sid c true s qsid ex os hs hq hemp hex hos]
      constructor <;> trivial
  · rw [add_entry_eq_transfer db now sid c hok s qsid ex hs hq hemp hex,
      add_entry_eq_transfer db now sid c true s qsid ex hs hq hemp hex]
    refine ⟨?_, ?_⟩
    · rw [addEntryInsert_fst, addEntryInsert_fst]
    · rw [addEntryInsert_entries, addEntryInsert_entries]

/-- Call-next is blind to the history-write outcome except in `history`. -/
theorem call_next_hok_invariant (db : DB) (now station_id : Nat)
    (code : String) (hok : Bool) :
    (call_next_customer db now station_id code hok).fst =
      (call_next_customer db now station_id code true).fst ∧
    (call_next_customer db now station_id code hok).snd.entries =
      (call_next_customer db now station_id code true).snd.entries := by
  rcases hop : (db.operators.filter (fun o => decide (o.code = code ∧
      o.station_id = some station_id))).head? with _ | op
  · unfold call_next_customer
    simp only [hop]
    constructor <;> trivial
  rcases hs : stationById db.stations station_id with _ | s
  · unfold call_next_customer
    simp only [hop, hs]
    constructor <;> trivial
  rcases hq : resolveQueueStation db.stations s with _ | qsid
  · unfold call_next_customer
    simp only [hop, hs, hq]
    constructor <;> trivial
  rcases hsel : (orderByQueue (groupWaiting db s qsid)).head? with _ | m
  · unfold call_next_customer
    simp only [hop, hs, hq, hsel]
    constructor <;> trivial
  · rw [call_next_eq_called db now station_id code hok op s qsid m hop hs hq hsel,
      call_next_eq_called db now station_id code true op s qsid m hop hs hq hsel]
    exact ⟨rfl, by rw [callNext_entries_eq, callNext_entries_eq]⟩

/-- Finish is blind to the history-write outcome except in `history`. -/
theorem finish_hok_invariant (db : DB) (now c : Nat) (hok : Bool) :
    (finish_customer db now c hok).fst = (finish_customer db now c true).fst ∧
    (finish_customer db now c hok).snd.entries =
      (finish_customer db now c true).snd.entries := by
  rcases hcur : (db.entries.filter (fun e => decide (e.customer_number = c ∧
      e.status = Status.called))).head? with _ | cur
  · rw [finish_customer_none db now c hok hcur, finish_customer_none db now c true hcur]
    constructor <;> trivial
  · refine ⟨?_, ?_⟩
    · rw [finish_customer_some_fst db now c hok cur hcur,
        finish_customer_some_fst db now c true cur hcur]
    · rw [finish_customer_some_entries db now c hok cur hcur,
        finish_customer_some_entries db now c true cur hcur]

/-- Release is blind to the history-write outcome except in `history`. -/
theorem release_hok_invariant (db : DB) (now c : Nat) (code : String) (hok : Bool) :
    (release_customer db now c code hok).fst =
      (release_customer db now c code true).fst ∧
    (release_customer db now c code hok).snd.entries =
      (release_customer db now c code true).snd.entries := by
  rcases hopr : (db.operators.filter (fun o => decide (o.code = code))).head? with _ | o
  · unfold release_customer
    simp only [hopr]
    constructor <;> trivial
  rcases hr : (db.entries.filter (fun e => decide (e.customer_number = c ∧
      e.status = Status.finished))).head? with _ | r
  · unfold release_customer
    simp only [hopr, hr]
    constructor <;> trivial
  · unfold release_customer
    simp only [hopr, hr]
    rcases hst : stationById db.stations r.station_id with _ | st
    · simp only [hst]
      constructor <;> trivial
    · simp only [hst]
      exact ⟨trivial, by rw [log_to_history_entries, log_to_history_entries]⟩

/-- Transfer is blind to the history-write outcome except in `history`. -/
theorem transfer_hok_invariant (db : DB) (now c : Nat) (hok : Bool) :
    (transfer_to_poked db now c hok).fst = (transfer_to_poked db now c true).fst ∧
    (transfer_to_poked db now c hok).snd.entries =
      (transfer_to_poked db now c true).snd.entries := by
  rcases hps : (db.stations.filter (fun st => decide (st.name = "פוקד 1"))).head?
    with _ | ps
  · unfold transfer_to_poked
    simp only [hps]
    constructor <;> trivial
  · rw [transfer_to_poked_eq db now c hok ps hps, transfer_to_poked_eq db now c true ps hps]
    exact ⟨rfl, by rw [log_to_history_entries, log_to_history_entries]⟩

/-- C9: for every operation that writes history (enqueue, call-next,
finish, release, transfer-to-poked), a failing history write (`hok =
false`, the caught exception in `log_to_history`) changes neither the
operation's result nor the committed `queue_entries` state: the caller
sees exactly what a successful history write would have produced. -/
theorem history_failure_never_surfaces (db : DB) (now sid c : Nat)
    (code : String) (t hok : Bool) :
    ((add_entry db now sid c t hok).fst = (add_entry db now sid c t true).fst ∧
     (add_entry db now sid c t hok).snd.entries =
       (add_entry db now sid c t true).snd.entries) ∧
    ((call_next_customer db now sid code hok).fst =
       (call_next_customer db now sid code true).fst ∧
     (call_next_customer db now sid code hok).snd.entries =
       (call_next_customer db now sid code true).snd.entries) ∧
    ((finish_customer db now c hok).fst = (finish_customer db now c true).fst ∧
     (finish_customer db now c hok).snd.entries =
       (finish_customer db now c true).snd.entries) ∧
    ((release_customer db now c code hok).fst =
       (release_customer db now c code true).fst ∧
     (release_customer db now c code hok).snd.entries =
       (release_customer db now c code true).snd.entries) ∧
    ((transfer_to_poked db now c hok).fst = (transfer_to_poked db now c true).fst ∧
     (transfer_to_poked db now c hok).snd.entries =
       (transfer_to_poked db now c true).snd.entries) :=
  ⟨add_entry_hok_invariant db now sid c t hok,
   call_next_hok_invariant db now sid code hok,
   finish_hok_invariant db now c hok,
   release_hok_invariant db now c code hok,
   transfer_hok_invariant db now c hok⟩

end QueueSystem
